import Mathlib

set_option autoImplicit false

/-! Verification model of the SOLI ontology core (soli/graph.py and
soli/models.py of alea-institute/soli-python).

Python strings are modelled as Lean String values; the character-level
operations used by the source (startswith, len, count, slicing) are defined
through String.data, matching the character-sequence semantics of Python str.
Python dicts are modelled as association lists with insertion order and
overwrite-in-place semantics.  The lxml element tree is modelled by the
XmlNode inductive: the parser only ever reads a tag, an attribute map, a
text payload (which may be absent, as in lxml) and the list of children.
External collaborators (network fetch, on-disk cache, lxml string parsing,
the rapidfuzz scorer) stay outside the model: parsing starts from an
XmlNode tree and fuzzy scores enter as an oracle argument. -/

/-- Python str.startswith, on character sequences. -/
def starts_with (s p : String) : Bool := p.data.isPrefixOf s.data

/-- Python slicing s[n:], on character sequences. -/
def drop_chars (s : String) (n : Nat) : String := ⟨s.data.drop n⟩

/-- Python s.count(ch) for a single-character argument. -/
def count_char (s : String) (ch : Char) : Nat := s.data.count ch

/-- Python len(s). -/
def str_len (s : String) : Nat := s.data.length

/-- Python dict lookup d.get(k): the binding of the key, if present. -/
def dget {α : Type} (m : List (String × α)) (k : String) : Option α :=
  match m with
  | [] => none
  | kv :: rest => if kv.1 == k then some kv.2 else dget rest k

/-- Python dict assignment d[k] = v: overwrite in place, else append at the end. -/
def dset {α : Type} (m : List (String × α)) (k : String) (v : α) : List (String × α) :=
  match m with
  | [] => [(k, v)]
  | kv :: rest => if kv.1 == k then (k, v) :: rest else kv :: dset rest k v

/-- The source pattern: if k not in d then d[k] = [v] else d[k].append(v). -/
def dappend {α : Type} (m : List (String × List α)) (k : String) (v : α) :
    List (String × List α) :=
  match m with
  | [] => [(k, [v])]
  | kv :: rest => if kv.1 == k then (kv.1, kv.2 ++ [v]) :: rest else kv :: dappend rest k v

/-- Stable insertion used to model Python sorted(key=len): an element goes
after all earlier elements of smaller or equal length. -/
def insert_by_len (x : String) : List String → List String
  | [] => [x]
  | y :: ys => if str_len x < str_len y then x :: y :: ys else y :: insert_by_len x ys

/-- Python sorted(keys, key=len): a stable sort by string length ascending. -/
def sort_by_len (l : List String) : List String := l.foldr insert_by_len []

/-- Truthiness of an optional string, as Python uses it in conditions:
None and the empty string are falsy. -/
def truthy : Option String → Bool
  | none => false
  | some s => s != ""

/-- Model of an lxml element: qualified tag, attribute map, text, children. -/
inductive XmlNode where
  | mk : String → List (String × String) → Option String → List XmlNode → XmlNode

def XmlNode.tag : XmlNode → String
  | .mk t _ _ _ => t

def XmlNode.attrib : XmlNode → List (String × String)
  | .mk _ a _ _ => a

def XmlNode.text : XmlNode → Option String
  | .mk _ _ x _ => x

def XmlNode.children : XmlNode → List XmlNode
  | .mk _ _ _ c => c

/-- node.attrib.get(key, None). -/
def XmlNode.getAttr (n : XmlNode) (k : String) : Option String := dget n.attrib k

/-- NSMAP from soli/models.py (the string keys; the None key is never
consulted by get_ns_tag, whose argument is always a plain string). -/
def NSMAP : List (String × String) :=
  [("dc", "http://purl.org/dc/elements/1.1/"),
   ("v1", "http://www.loc.gov/mads/rdf/v1#"),
   ("owl", "http://www.w3.org/2002/07/owl#"),
   ("rdf", "http://www.w3.org/1999/02/22-rdf-syntax-ns#"),
   ("xsd", "http://www.w3.org/2001/XMLSchema#"),
   ("soli", "https://soli.openlegalstandard.org/"),
   ("rdfs", "http://www.w3.org/2000/01/rdf-schema#"),
   ("skos", "http://www.w3.org/2004/02/skos/core#"),
   ("xml", "http://www.w3.org/XML/1998/namespace")]

/-- SOLI.get_ns_tag: Clark notation "\x7bnamespace-uri\x7dtag". -/
def get_ns_tag (ns tag : String) : String :=
  match dget NSMAP ns with
  | some uri => "\x7b" ++ uri ++ "\x7d" ++ tag
  | none => tag

/-- OWL_THING constant from soli/graph.py. -/
def OWL_THING : String := "http://www.w3.org/2002/07/owl#Thing"

/-- The canonical base URL hard-coded in SOLI.normalize_iri. -/
def SOLI_BASE : String := "https://soli.openlegalstandard.org/"

/-- DEFAULT_MAX_DEPTH constant from soli/graph.py. -/
def DEFAULT_MAX_DEPTH : Nat := 16

/-- MIN_PREFIX_LENGTH constant from soli/graph.py. -/
def MIN_PREFIX_LENGTH : Nat := 3

/-- SOLI.normalize_iri from soli/graph.py (the functools cache on the source
is semantically invisible: the function is pure). -/
def normalize_iri (iri : String) : String :=
  if starts_with iri SOLI_BASE then iri
  else
    let iri := if starts_with iri "soli:" then drop_chars iri 5 else iri
    let iri := if starts_with iri "lmss:" then drop_chars iri 5 else iri
    let iri := if starts_with iri "http://lmss.sali.org/" then drop_chars iri 21 else iri
    if count_char iri '/' == 0 then SOLI_BASE ++ iri else iri

/-- A parsed triple: (subject IRI, predicate qualified name, object).  The
object slot carries child.text values, which may be None in the source, so
it is an Option; attribute-sourced objects are always present. -/
abbrev Triple := String × String × Option String

/-- OWLClass from soli/models.py.  List-valued fields that receive
child.text values can hold None in the source (plain list mutation bypasses
pydantic validation), hence Option String elements. -/
structure OWLClass where
  iri : String
  label : Option String := none
  sub_class_of : List String := []
  parent_class_of : List String := []
  is_defined_by : Option String := none
  see_also : List (Option String) := []
  comment : Option String := none
  deprecated : Bool := false
  preferred_label : Option String := none
  alternative_labels : List (Option String) := []
  translations : List (String × Option String) := []
  hidden_label : Option String := none
  definition : Option String := none
  examples : List (Option String) := []
  notes : List (Option String) := []
  history_note : Option String := none
  editorial_note : Option String := none
  in_scheme : Option String := none
  identifier : Option String := none
  description : Option String := none
  source : Option String := none
  country : Option String := none
deriving DecidableEq, Repr

/-- OWLClass.is_valid from soli/models.py. -/
def OWLClass.is_valid (c : OWLClass) : Bool := c.label.isSome

/-- The SOLI instance state: the ontology snapshot fields of soli/graph.py.
The transport and caching configuration fields are external collaborators
and are not modelled.  label_trie models the marisa_trie key set (the
optional dependency is modelled as installed, the standard configuration);
prefix_cache is the memo dict consulted by search_by_prefix; cached_triples
is the frozen triple tuple. -/
structure SOLI where
  title : Option String := none
  description : Option String := none
  classes : List OWLClass := []
  iri_to_index : List (String × Nat) := []
  label_to_index : List (String × List Nat) := []
  alt_label_to_index : List (String × List Nat) := []
  class_edges : List (String × List String) := []
  cached_triples : List Triple := []
  label_trie : Option (List String) := none
  prefix_cache : List (String × List (Option OWLClass)) := []
  triples : List Triple := []
deriving DecidableEq, Repr

/-- One child branch of the dispatch loop in SOLI.parse_owl_class: mutate
the class under construction and append to the triple log, branch by
qualified tag, exactly as the source if-cascade does.  The skos:prefLabel
branch sets the field and appends no triple (its "add triple" comment in
the source is followed by no statement). -/
def parse_owl_class_child (c : OWLClass) (ts : List Triple) (child : XmlNode) :
    OWLClass × List Triple :=
  if child.tag == get_ns_tag "rdfs" "label" then
    ({ c with label := child.text }, ts ++ [(c.iri, "rdfs:label", child.text)])
  else if child.tag == get_ns_tag "rdfs" "subClassOf" then
    let parent_class := child.getAttr (get_ns_tag "rdf" "resource")
    if truthy parent_class then
      ({ c with sub_class_of := c.sub_class_of ++ [parent_class.getD ""] },
       ts ++ [(c.iri, "rdfs:subClassOf", some (parent_class.getD ""))])
    else (c, ts)
  else if child.tag == get_ns_tag "rdfs" "isDefinedBy" then
    let defined_by := child.getAttr (get_ns_tag "rdf" "resource")
    if truthy defined_by then
      ({ c with is_defined_by := some (defined_by.getD "") },
       ts ++ [(c.iri, "rdfs:isDefinedBy", some (defined_by.getD ""))])
    else (c, ts)
  else if child.tag == get_ns_tag "rdfs" "seeAlso" then
    let see_also := child.getAttr (get_ns_tag "rdf" "resource")
    if truthy see_also then
      ({ c with see_also := c.see_also ++ [child.text] },
       ts ++ [(c.iri, "rdfs:seeAlso", some (see_also.getD ""))])
    else (c, ts)
  else if child.tag == get_ns_tag "rdfs" "comment" then
    ({ c with comment := child.text }, ts ++ [(c.iri, "rdfs:comment", child.text)])
  else if child.tag == get_ns_tag "owl" "deprecated" then
    ({ c with deprecated := true }, ts ++ [(c.iri, "owl:deprecated", some "true")])
  else if child.tag == get_ns_tag "skos" "prefLabel" then
    ({ c with preferred_label := child.text }, ts)
  else if child.tag == get_ns_tag "skos" "altLabel" then
    let lang := child.getAttr (get_ns_tag "xml" "lang")
    let c2 :=
      if truthy lang then
        { c with translations := dset c.translations (lang.getD "") child.text }
      else { c with alternative_labels := c.alternative_labels ++ [child.text] }
    (c2, ts ++ [(c.iri, "skos:altLabel", child.text)])
  else if child.tag == get_ns_tag "skos" "hiddenLabel" then
    ({ c with hidden_label := child.text,
              alternative_labels := c.alternative_labels ++ [child.text] },
     ts ++ [(c.iri, "skos:hiddenLabel", child.text)])
  else if child.tag == get_ns_tag "skos" "definition" then
    ({ c with definition := child.text }, ts ++ [(c.iri, "skos:definition", child.text)])
  else if child.tag == get_ns_tag "skos" "example" then
    ({ c with examples := c.examples ++ [child.text] },
     ts ++ [(c.iri, "skos:example", child.text)])
  else if child.tag == get_ns_tag "skos" "note" then
    ({ c with notes := c.notes ++ [child.text] },
     ts ++ [(c.iri, "skos:note", child.text)])
  else if child.tag == get_ns_tag "skos" "historyNote" then
    ({ c with history_note := child.text },
     ts ++ [(c.iri, "skos:historyNote", child.text)])
  else if child.tag == get_ns_tag "skos" "editorialNote" then
    ({ c with editorial_note := child.text },
     ts ++ [(c.iri, "skos:editorialNote", child.text)])
  else if child.tag == get_ns_tag "skos" "inScheme" then
    ({ c with in_scheme := child.text }, ts ++ [(c.iri, "skos:inScheme", child.text)])
  else if child.tag == get_ns_tag "dc" "identifier" then
    ({ c with identifier := child.text }, ts ++ [(c.iri, "dc:identifier", child.text)])
  else if child.tag == get_ns_tag "dc" "description" then
    ({ c with description := child.text }, ts ++ [(c.iri, "dc:description", child.text)])
  else if child.tag == get_ns_tag "dc" "source" then
    ({ c with source := child.text }, ts ++ [(c.iri, "dc:source", child.text)])
  else if child.tag == get_ns_tag "v1" "country" then
    ({ c with country := child.text }, ts ++ [(c.iri, "v1:country", child.text)])
  else (c, ts)

/-- Tail of SOLI.parse_owl_class for an accepted class: append it, record
its position under its IRI, and index its truthy label and truthy
alternative labels (factored out of parse_owl_class below). -/
def accept_class (s : SOLI) (c : OWLClass) (ts : List Triple) : SOLI :=
  let classes := s.classes ++ [c]
  let index := classes.length - 1
  let label_map :=
    if truthy c.label then dappend s.label_to_index (c.label.getD "") index
    else s.label_to_index
  let alt_map := c.alternative_labels.foldl
    (fun m al => if truthy al then dappend m (al.getD "") index else m)
    s.alt_label_to_index
  { s with classes := classes,
           iri_to_index := dset s.iri_to_index c.iri index,
           label_to_index := label_map,
           alt_label_to_index := alt_map,
           triples := ts }

/-- SOLI.parse_owl_class.  Source behaviours preserved: a node without an
rdf:about attribute is skipped before anything is touched; triples appended
while scanning children stay in the global log even when the class is then
discarded as invalid; an OWL_THING class without a label is accepted (the
validity skip applies only to other IRIs). -/
def parse_owl_class (s : SOLI) (node : XmlNode) : SOLI :=
  match node.getAttr (get_ns_tag "rdf" "about") with
  | none => s
  | some iri =>
    let cts := node.children.foldl
      (fun (p : OWLClass × List Triple) child => parse_owl_class_child p.1 p.2 child)
      ({ iri := iri }, s.triples)
    let c := cts.1
    if !c.is_valid && c.iri != OWL_THING then { s with triples := cts.2 }
    else accept_class s c cts.2

/-- SOLI.parse_owl_ontology: document title and description. -/
def parse_owl_ontology (s : SOLI) (node : XmlNode) : SOLI :=
  node.children.foldl
    (fun s child =>
      if child.tag == get_ns_tag "dc" "title" then { s with title := child.text }
      else if child.tag == get_ns_tag "dc" "description" then
        { s with description := child.text }
      else s)
    s

/-- SOLI.parse_node: dispatch on top-level node kind.  The property,
individual and description kinds are recognized but produce nothing, like
every unknown tag, so they all collapse to the identity branch. -/
def parse_node (s : SOLI) (node : XmlNode) : SOLI :=
  if node.tag == get_ns_tag "owl" "Class" then parse_owl_class s node
  else if node.tag == get_ns_tag "owl" "Ontology" then parse_owl_ontology s node
  else s

/-- In-place update of one list position (used for the reverse-edge append
the source performs on self[parent_class]). -/
def list_modify {α : Type} : List α → Nat → (α → α) → List α
  | [], _, _ => []
  | a :: l, 0, f => f a :: l
  | a :: l, Nat.succ n, f => a :: list_modify l n f

/-- One step of the post-parse edge pass: skip the OWL_THING parent, record
the forward edge, then append the reverse edge when the (normalized) parent
resolves, as in the loop body of SOLI.parse_owl. -/
def add_edge (s : SOLI) (child_iri parent_class : String) : SOLI :=
  if parent_class == OWL_THING then s
  else
    let s2 := { s with class_edges := dappend s.class_edges parent_class child_iri }
    match dget s2.iri_to_index (normalize_iri parent_class) with
    | some index =>
      { s2 with classes := (list_modify s2.classes index
          (fun c => { c with parent_class_of := c.parent_class_of ++ [child_iri] })) }
    | none => s2

/-- The post-parse pass of SOLI.parse_owl.  The source iterates the mutable
class list while appending only to parent_class_of fields; iri and
sub_class_of are never written by the pass, so snapshotting the iteration
pairs up front is equivalent. -/
def build_class_edges (s : SOLI) : SOLI :=
  (s.classes.map (fun c => (c.iri, c.sub_class_of))).foldl
    (fun s p => p.2.foldl (fun s par => add_edge s p.1 par) s) s

/-- The label set stored in the marisa trie by SOLI.parse_owl: label and
alt-label keys of at least MIN_PREFIX_LENGTH characters.  The trie is a key
set, modelled up to enumeration order (sound here: search re-sorts keys by
length, so only the order of equal-length ties depends on it, and no
verified property does). -/
def build_trie_keys (s : SOLI) : List String :=
  (((s.label_to_index.map Prod.fst) ++ (s.alt_label_to_index.map Prod.fst)).filter
    (fun l => decide (MIN_PREFIX_LENGTH ≤ str_len l))).dedup

/-- SOLI.parse_owl on an already-built element tree (lxml string parsing is
an external collaborator): top-level dispatch, edge pass, triple freeze,
trie build. -/
def parse_owl (s : SOLI) (root : XmlNode) : SOLI :=
  let s1 := root.children.foldl parse_node s
  let s2 := build_class_edges s1
  let s3 := { s2 with cached_triples := s2.triples }
  { s3 with label_trie := some (build_trie_keys s3) }

/-- SOLI.__init__ after the fetch stage: parse into a fresh state. -/
def load (root : XmlNode) : SOLI := parse_owl {} root

/-- SOLI.refresh, with the freshly fetched document as argument: the source
clears title, description, classes, the three position indices, class_edges,
triples and the frozen triple tuple, then reparses.  The prefix_cache memo
and the old trie are NOT cleared by the source (the trie is rebuilt inside
parse_owl; the prefix_cache is left holding pre-refresh results). -/
def refresh (s : SOLI) (new_root : XmlNode) : SOLI :=
  parse_owl
    { s with title := none, description := none, classes := [], iri_to_index := [],
             label_to_index := [], alt_label_to_index := [], class_edges := [],
             triples := [], cached_triples := [] }
    new_root

/-- SOLI.__getitem__ on an int argument.  Python list indexing semantics:
nonnegative positions within range, negative positions counted from the
end; IndexError is caught and turned into None. -/
def getitem_int (s : SOLI) (i : Int) : Option OWLClass :=
  if 0 ≤ i then s.classes.get? i.toNat
  else
    let j : Int := (s.classes.length : Int) + i
    if 0 ≤ j then s.classes.get? j.toNat else none

/-- SOLI.__getitem__ on a str argument: normalize, consult iri_to_index,
then fetch the position (always in range for parser-built snapshots). -/
def getitem_str (s : SOLI) (item : String) : Option OWLClass :=
  match dget s.iri_to_index (normalize_iri item) with
  | some index => s.classes.get? index
  | none => none

/-- SOLI.get_by_label.  Each position is fetched through integer item
access, so the model keeps the Option that access yields. -/
def get_by_label (s : SOLI) (label : String) (include_alt_labels : Bool) :
    List (Option OWLClass) :=
  let cs := ((dget s.label_to_index label).getD []).map (fun i => s.classes.get? i)
  if include_alt_labels then
    cs ++ ((dget s.alt_label_to_index label).getD []).map (fun i => s.classes.get? i)
  else cs

/-- The key enumeration inside SOLI.search_by_prefix: the trie branch when
a trie was built, the pure-python fallback scan over all index keys
otherwise; both end sorted by string length ascending (a stable sort, as
Python sorted is). -/
def prefix_keys (s : SOLI) (pfx : String) : List String :=
  match s.label_trie with
  | some trie_keys => sort_by_len (trie_keys.filter (fun k => starts_with k pfx))
  | none =>
      sort_by_len
        (((s.label_to_index.map Prod.fst) ++ (s.alt_label_to_index.map Prod.fst)).filter
          (fun k => starts_with k pfx))

/-- SOLI.search_by_prefix: memo-dict check, key enumeration, union of the
position-index entries of each key in order, materialisation through
integer item access, memoisation of the materialised list. -/
def search_by_prefix (s : SOLI) (pfx : String) : List (Option OWLClass) × SOLI :=
  match dget s.prefix_cache pfx with
  | some cached => (cached, s)
  | none =>
    let keys := prefix_keys s pfx
    let iri_list := keys.foldl
      (fun acc key => acc ++ (dget s.label_to_index key).getD []
                          ++ (dget s.alt_label_to_index key).getD []) []
    let classes := iri_list.map (fun i => s.classes.get? i)
    (classes, { s with prefix_cache := dset s.prefix_cache pfx classes })

/-- SOLI.get_parents for nonnegative depth arguments, recursing exactly as
the source does: resolve the IRI (empty branch when it does not resolve),
return only the entity at depth 0, otherwise the entity followed by the
recursive walk of each declared parent at depth one less. -/
def get_parents (s : SOLI) : String → Nat → List OWLClass
  | iri, 0 =>
    match getitem_str s iri with
    | none => []
    | some c => [c]
  | iri, Nat.succ n =>
    match getitem_str s iri with
    | none => []
    | some c => c :: c.sub_class_of.flatMap (fun p => get_parents s p n)

/-- Sequencing of recursive calls over a list: none as soon as one call
answers none (used by the fuel semantics below: a child call that does not
finish makes the whole call not finish). -/
def opt_map_list {α β : Type} (f : α → Option β) : List α → Option (List β)
  | [] => some []
  | a :: t =>
    match f a with
    | none => none
    | some b =>
      match opt_map_list f t with
      | none => none
      | some bs => some (b :: bs)

/-- SOLI.get_parents with the original Int-typed depth argument and an
explicit fuel parameter bounding the call-stack depth: fuel 0 answers none,
meaning the computation did not finish within that call depth, so a
computation answering none for every fuel never returns. -/
def get_parents_rec (s : SOLI) : Nat → String → Int → Option (List OWLClass)
  | 0, _, _ => none
  | Nat.succ fuel, iri, max_depth =>
    match getitem_str s iri with
    | none => some []
    | some c =>
      if max_depth == 0 then some [c]
      else
        match opt_map_list (fun p => get_parents_rec s fuel p (max_depth - 1))
            c.sub_class_of with
        | none => none
        | some tails => some (c :: tails.flatten)

/-- The entity e lies within n resolution hops of iri: zero hops resolve
iri to e directly, a further hop follows one declared parent IRI of the
resolved entity, exactly the steps get_parents takes. -/
def within_hops (s : SOLI) : Nat → String → OWLClass → Prop
  | 0, iri, e => getitem_str s iri = some e
  | Nat.succ n, iri, e =>
    getitem_str s iri = some e ∨
      ∃ c, getitem_str s iri = some c ∧ ∃ p ∈ c.sub_class_of, within_hops s n p e

/-- The call get_parents(iri, max_depth) never returns: no finite
call-stack budget makes the fuel semantics produce a result. -/
def diverges_at (s : SOLI) (iri : String) (max_depth : Int) : Prop :=
  ∀ fuel, get_parents_rec s fuel iri max_depth = none

/-- Scores of the rapidfuzz scorers, abstracted: their numeric scale plays
no role in the collection loop being verified. -/
abbrev Score := Nat

/-- Inner loop of SOLI.search_by_label over the classes sharing one matched
label: append the entity if its IRI is unseen, then test the limit and
break out of this (inner) loop only.  A none entry would raise in the
source and cannot arise for parser-built snapshots, whose index positions
are all in range; it contributes nothing here. -/
def sbl_inner (limit : Nat) (score : Score) :
    List (Option OWLClass) → List (OWLClass × Score) × List String →
    List (OWLClass × Score) × List String
  | [], acc => acc
  | oc :: rest, (results, seen) =>
    let acc :=
      match oc with
      | some c =>
        if seen.contains c.iri then (results, seen)
        else (results ++ [(c, score)], c.iri :: seen)
      | none => (results, seen)
    if limit ≤ acc.1.length then acc
    else sbl_inner limit score rest acc

/-- Outer loop of SOLI.search_by_label over the fuzzy-matched labels: the
source has no break at this level, so every matched label is visited. -/
def sbl_outer (s : SOLI) (include_alt_labels : Bool) (limit : Nat) :
    List (String × Score) → List (OWLClass × Score) × List String →
    List (OWLClass × Score) × List String
  | [], acc => acc
  | (lbl, score) :: rest, acc =>
    sbl_outer s include_alt_labels limit rest
      (sbl_inner limit score (get_by_label s lbl include_alt_labels) acc)

/-- SOLI.search_by_label with the rapidfuzz stage as an oracle argument:
the oracle list stands for the (string, score) pairs _basic_search returns
for the query, already sorted by descending score then ascending length,
at most limit of them. -/
def search_by_label (s : SOLI) (oracle : List (String × Score))
    (include_alt_labels : Bool) (limit : Nat) : List (OWLClass × Score) :=
  (sbl_outer s include_alt_labels limit oracle ([], [])).1

/-- SOLI._filter_triples: linear scans of the frozen triple sequence. -/
def filter_triples (triples : List Triple) (value : String) (filter_by : String) :
    Option (List Triple) :=
  if filter_by == "predicate" then some (triples.filter (fun t => t.2.1 == value))
  else if filter_by == "subject" then some (triples.filter (fun t => t.1 == value))
  else if filter_by == "object" then some (triples.filter (fun t => t.2.2 == some value))
  else none

/-- Scaffolding for concrete documents: an owl:Class element carrying the
given rdf:about value. -/
def mk_class_node (iri : String) (children : List XmlNode) : XmlNode :=
  XmlNode.mk (get_ns_tag "owl" "Class") [(get_ns_tag "rdf" "about", iri)] none children

/-- Scaffolding: an rdfs:label element with the given text. -/
def mk_label (t : String) : XmlNode :=
  XmlNode.mk (get_ns_tag "rdfs" "label") [] (some t) []

/-- Scaffolding: an rdfs:subClassOf element with the given rdf:resource. -/
def mk_sub_class_of (r : String) : XmlNode :=
  XmlNode.mk (get_ns_tag "rdfs" "subClassOf") [(get_ns_tag "rdf" "resource", r)] none []

/-- Scaffolding: a document root with the given top-level nodes. -/
def mk_root (ns : List XmlNode) : XmlNode :=
  XmlNode.mk (get_ns_tag "rdf" "RDF") [] none ns

/-- A document whose single class carries a legacy-prefixed IRI. -/
def doc_legacy : XmlNode :=
  mk_root [mk_class_node "soli:R1" [mk_label "A"]]

/-- A document where B declares its parent by the legacy-prefixed IRI that
entity A itself carries. -/
def doc_legacy_parent : XmlNode :=
  mk_root
    [mk_class_node "soli:R1" [mk_label "A"],
     mk_class_node (SOLI_BASE ++ "R2") [mk_label "B", mk_sub_class_of "soli:R1"]]

/-- A document with a canonical-IRI parent and child. -/
def doc_canonical : XmlNode :=
  mk_root
    [mk_class_node (SOLI_BASE ++ "R1") [mk_label "A"],
     mk_class_node (SOLI_BASE ++ "R2") [mk_label "B", mk_sub_class_of (SOLI_BASE ++ "R1")]]

/-- A document whose single class declares itself as its own parent. -/
def doc_cycle : XmlNode :=
  mk_root
    [mk_class_node (SOLI_BASE ++ "R0") [mk_label "C", mk_sub_class_of (SOLI_BASE ++ "R0")]]

/-- A document containing a bare owl:Thing class node without a label. -/
def doc_thing : XmlNode :=
  mk_root [mk_class_node OWL_THING []]

/-- A document whose single class is labelled abcd. -/
def doc_abcd : XmlNode :=
  mk_root [mk_class_node (SOLI_BASE ++ "R1") [mk_label "abcd"]]

/-- A document whose single class is labelled zzzz. -/
def doc_zzzz : XmlNode :=
  mk_root [mk_class_node (SOLI_BASE ++ "R2") [mk_label "zzzz"]]

/-- A document with two classes labelled aa and one labelled ab. -/
def doc_fuzzy : XmlNode :=
  mk_root
    [mk_class_node (SOLI_BASE ++ "R1") [mk_label "aa"],
     mk_class_node (SOLI_BASE ++ "R2") [mk_label "aa"],
     mk_class_node (SOLI_BASE ++ "R3") [mk_label "ab"]]

/-- The entity with its parent_class_of field cleared: the part of an
entity the post-parse edge pass never changes. -/
def clear_parents (c : OWLClass) : OWLClass := { c with parent_class_of := [] }

/-- Consistency of the position indices built during parsing: every
iri_to_index entry points at an in-range class carrying that IRI, every
stored class is reachable from iri_to_index through its own IRI, and every
label and alt-label entry points at classes carrying that string. -/
def IndexOK (s : SOLI) : Prop :=
  (∀ k v, dget s.iri_to_index k = some v → ∃ c, s.classes.get? v = some c ∧ c.iri = k) ∧
  (∀ i c, s.classes.get? i = some c → ∃ v, dget s.iri_to_index c.iri = some v) ∧
  (∀ k l, dget s.label_to_index k = some l →
    ∀ i ∈ l, ∃ c, s.classes.get? i = some c ∧ c.label = some k) ∧
  (∀ k l, dget s.alt_label_to_index k = some l →
    ∀ i ∈ l, ∃ c, s.classes.get? i = some c ∧ some k ∈ c.alternative_labels)

/-- What the edge pass can and cannot do to a state: the position indices
stay untouched, classes keep their count and every field except
parent_class_of, and parent_class_of entries are never removed. -/
def EdgesRel (s t : SOLI) : Prop :=
  t.iri_to_index = s.iri_to_index ∧
  t.label_to_index = s.label_to_index ∧
  t.alt_label_to_index = s.alt_label_to_index ∧
  t.classes.length = s.classes.length ∧
  (∀ i, (t.classes.get? i).map clear_parents = (s.classes.get? i).map clear_parents) ∧
  (∀ i x c, s.classes.get? i = some c → x ∈ c.parent_class_of →
    ∃ c2, t.classes.get? i = some c2 ∧ x ∈ c2.parent_class_of)

theorem dget_dset {α : Type} (m : List (String × α)) (k k2 : String) (v : α) :
    dget (dset m k v) k2 = if k2 = k then some v else dget m k2 := by
  induction m with
  | nil =>
    by_cases h : k2 = k
    · subst h; simp [dset, dget]
    · simp [dset, dget, Ne.symm h, h]
  | cons kv rest ih =>
    by_cases h1 : kv.1 = k
    · by_cases h2 : k2 = k
      · subst h2; simp [dset, dget, h1]
      · simp [dset, dget, h1, h2, Ne.symm h2]
    · by_cases h2 : k2 = k
      · subst h2; simp [dset, dget, h1, Ne.symm h1, ih]
      · by_cases h3 : kv.1 = k2
        · simp [dset, dget, h1, h2, h3]
        · simp [dset, dget, h1, h2, h3, ih]

theorem dget_dappend {α : Type} (m : List (String × List α)) (k k2 : String) (v : α) :
    dget (dappend m k v) k2 =
      if k2 = k then some ((dget m k).getD [] ++ [v]) else dget m k2 := by
  induction m with
  | nil =>
    by_cases h : k2 = k
    · subst h; simp [dappend, dget]
    · simp [dappend, dget, Ne.symm h, h]
  | cons kv rest ih =>
    by_cases h1 : kv.1 = k
    · by_cases h2 : k2 = k
      · subst h2; simp [dappend, dget, h1]
      · simp [dappend, dget, h1, h2, Ne.symm h2]
    · by_cases h2 : k2 = k
      · subst h2; simp [dappend, dget, h1, Ne.symm h1, ih]
      · by_cases h3 : kv.1 = k2
        · simp [dappend, dget, h1, h2, h3]
        · simp [dappend, dget, h1, h2, h3, ih]

theorem list_modify_get {α : Type} (l : List α) (i j : Nat) (f : α → α) :
    (list_modify l i f).get? j = if j = i then (l.get? j).map f else l.get? j := by
  induction l generalizing i j with
  | nil => simp [list_modify]
  | cons a t ih =>
    cases i with
    | zero =>
      cases j with
      | zero => simp [list_modify]
      | succ j2 => simp [list_modify]
    | succ i2 =>
      cases j with
      | zero => simp [list_modify]
      | succ j2 => simpa [list_modify] using ih i2 j2

theorem foldl_preserve {σ τ : Type} (f : σ → τ → σ) (P : σ → Prop)
    (hstep : ∀ s x, P s → P (f s x)) :
    ∀ (l : List τ) (s : σ), P s → P (l.foldl f s) := by
  intro l
  induction l with
  | nil => intro s h; simpa using h
  | cons x t ih => intro s h; exact ih (f s x) (hstep s x h)

theorem foldl_rel {σ τ : Type} (f : σ → τ → σ) (R : σ → σ → Prop)
    (hrefl : ∀ a, R a a) (htrans : ∀ a b c, R a b → R b c → R a c)
    (hstep : ∀ s x, R s (f s x)) :
    ∀ (l : List τ) (s : σ), R s (l.foldl f s) := by
  intro l
  induction l with
  | nil => intro s; exact hrefl s
  | cons x t ih => intro s; exact htrans _ _ _ (hstep s x) (ih (f s x))

theorem foldl_append_flatMap {α β : Type} (g : α → List β) (l : List α) :
    ∀ init : List β, l.foldl (fun acc x => acc ++ g x) init = init ++ l.flatMap g := by
  induction l with
  | nil => intro init; simp
  | cons x t ih => intro init; simp [ih, List.flatMap_cons, List.append_assoc]

theorem mem_insert_by_len (x y : String) (l : List String) :
    y ∈ insert_by_len x l ↔ y = x ∨ y ∈ l := by
  induction l with
  | nil => simp [insert_by_len]
  | cons a t ih =>
    by_cases h : str_len x < str_len a
    · simp [insert_by_len, h]
    · simp [insert_by_len, h, ih]
      tauto

theorem mem_sort_by_len (y : String) (l : List String) :
    y ∈ sort_by_len l ↔ y ∈ l := by
  induction l with
  | nil => simp [sort_by_len]
  | cons a t ih =>
    simp only [sort_by_len, List.foldr_cons] at *
    rw [mem_insert_by_len, ih, List.mem_cons]

theorem pairwise_insert_by_len (x : String) (l : List String)
    (h : l.Pairwise (fun a b => str_len a ≤ str_len b)) :
    (insert_by_len x l).Pairwise (fun a b => str_len a ≤ str_len b) := by
  induction l with
  | nil => simp [insert_by_len]
  | cons a t ih =>
    rcases List.pairwise_cons.mp h with ⟨ha, ht⟩
    by_cases hx : str_len x < str_len a
    · rw [insert_by_len, if_pos hx]
      refine List.pairwise_cons.mpr ⟨?_, h⟩
      intro b hb
      rcases List.mem_cons.mp hb with rfl | hbt
      · exact Nat.le_of_lt hx
      · exact Nat.le_trans (Nat.le_of_lt hx) (ha b hbt)
    · rw [insert_by_len, if_neg hx]
      refine List.pairwise_cons.mpr ⟨?_, ih ht⟩
      intro b hb
      rcases (mem_insert_by_len x b t).mp hb with rfl | hbt
      · exact Nat.le_of_not_lt hx
      · exact ha b hbt

theorem pairwise_sort_by_len (l : List String) :
    (sort_by_len l).Pairwise (fun a b => str_len a ≤ str_len b) := by
  induction l with
  | nil => simp [sort_by_len]
  | cons a t ih => exact pairwise_insert_by_len a (sort_by_len t) ih

theorem starts_with_iff (s p : String) : starts_with s p = true ↔ p.data <+: s.data := by
  simp [starts_with, List.isPrefixOf_iff_prefix]

theorem starts_with_append (p s : String) : starts_with (p ++ s) p = true := by
  rw [starts_with_iff, String.data_append]
  exact List.prefix_append p.data s.data

theorem starts_with_false_of_get (s p : String) (i : Nat)
    (hp : (p.data.get? i).isSome) (hne : p.data.get? i ≠ s.data.get? i) :
    starts_with s p = false := by
  by_contra hcon
  have htrue : starts_with s p = true := by
    cases h : starts_with s p with
    | true => rfl
    | false => exact absurd h hcon
  rcases (starts_with_iff s p).mp htrue with ⟨t, ht⟩
  have hlt : i < p.data.length := by
    rcases Option.isSome_iff_exists.mp hp with ⟨a, ha⟩
    exact (List.get?_eq_some.mp ha).1
  have : s.data.get? i = p.data.get? i := by
    rw [← ht]
    exact List.get?_append hlt
  exact hne this.symm

theorem drop_chars_append (p s : String) (n : Nat) (hn : p.data.length = n) :
    drop_chars (p ++ s) n = s := by
  show (⟨((p ++ s) : String).data.drop n⟩ : String) = s
  rw [String.data_append, ← hn, List.drop_left]

theorem count_char_zero_no_legacy (tok : String) (h : count_char tok '/' = 0) :
    starts_with tok "http://lmss.sali.org/" = false := by
  by_contra hcon
  have htrue : starts_with tok "http://lmss.sali.org/" = true := by
    cases hsw : starts_with tok "http://lmss.sali.org/" with
    | true => rfl
    | false => exact absurd hsw hcon
  rcases (starts_with_iff tok "http://lmss.sali.org/").mp htrue with hpre
  have hc : ("http://lmss.sali.org/").data.count '/' ≤ tok.data.count '/' :=
    hpre.sublist.count_le '/'
  have h3 : ("http://lmss.sali.org/").data.count '/' = 3 := by decide
  rw [h3] at hc
  rw [count_char] at h
  omega

theorem normalize_canonical (tok : String) :
    normalize_iri (SOLI_BASE ++ tok) = SOLI_BASE ++ tok := by
  rw [normalize_iri, if_pos (starts_with_append SOLI_BASE tok)]

theorem normalize_soli_form (tok : String) (hs : count_char tok '/' = 0)
    (hl : starts_with tok "lmss:" = false) :
    normalize_iri ("soli:" ++ tok) = SOLI_BASE ++ tok := by
  have h1 : starts_with ("soli:" ++ tok) SOLI_BASE = false := by
    apply starts_with_false_of_get _ _ 0
    · decide
    · rw [String.data_append]
      intro hcon
      simp [SOLI_BASE] at hcon
  have h2 : starts_with ("soli:" ++ tok) "soli:" = true := starts_with_append _ _
  have h3 : drop_chars ("soli:" ++ tok) 5 = tok := drop_chars_append _ _ _ (by decide)
  have h4 : starts_with tok "http://lmss.sali.org/" = false :=
    count_char_zero_no_legacy tok hs
  rw [normalize_iri, if_neg (by simp [h1])]
  simp only [h2, if_true, h3, hl, if_false, Bool.false_eq_true, h4]
  rw [if_pos (by simp [count_char] at hs ⊢; simp [count_char, hs])]

theorem normalize_lmss_form (tok : String) (hs : count_char tok '/' = 0) :
    normalize_iri ("lmss:" ++ tok) = SOLI_BASE ++ tok := by
  have h1 : starts_with ("lmss:" ++ tok) SOLI_BASE = false := by
    apply starts_with_false_of_get _ _ 0
    · decide
    · rw [String.data_append]
      intro hcon
      simp [SOLI_BASE] at hcon
  have h1b : starts_with ("lmss:" ++ tok) "soli:" = false := by
    apply starts_with_false_of_get _ _ 0
    · decide
    · rw [String.data_append]
      intro hcon
      simp at hcon
  have h2 : starts_with ("lmss:" ++ tok) "lmss:" = true := starts_with_append _ _
  have h3 : drop_chars ("lmss:" ++ tok) 5 = tok := drop_chars_append _ _ _ (by decide)
  have h4 : starts_with tok "http://lmss.sali.org/" = false :=
    count_char_zero_no_legacy tok hs
  rw [normalize_iri, if_neg (by simp [h1])]
  simp only [h1b, Bool.false_eq_true, if_false, h2, if_true, h3, h4]
  rw [if_pos (by simp [count_char] at hs ⊢; simp [count_char, hs])]

theorem normalize_legacy_url_form (tok : String) (hs : count_char tok '/' = 0) :
    normalize_iri ("http://lmss.sali.org/" ++ tok) = SOLI_BASE ++ tok := by
  have h1 : starts_with ("http://lmss.sali.org/" ++ tok) SOLI_BASE = false := by
    apply starts_with_false_of_get _ _ 4
    · decide
    · rw [String.data_append]
      intro hcon
      simp [SOLI_BASE] at hcon
  have h1b : starts_with ("http://lmss.sali.org/" ++ tok) "soli:" = false := by
    apply starts_with_false_of_get _ _ 0
    · decide
    · rw [String.data_append]
      intro hcon
      simp at hcon
  have h1c : starts_with ("http://lmss.sali.org/" ++ tok) "lmss:" = false := by
    apply starts_with_false_of_get _ _ 0
    · decide
    · rw [String.data_append]
      intro hcon
      simp at hcon
  have h2 : starts_with ("http://lmss.sali.org/" ++ tok) "http://lmss.sali.org/" = true :=
    starts_with_append _ _
  have h3 : drop_chars ("http://lmss.sali.org/" ++ tok) 21 = tok :=
    drop_chars_append _ _ _ (by decide)
  rw [normalize_iri, if_neg (by simp [h1])]
  simp only [h1b, h1c, Bool.false_eq_true, if_false, h2, if_true, h3]
  rw [if_pos (by simp [count_char] at hs ⊢; simp [count_char, hs])]

theorem list_modify_length {α : Type} (l : List α) (i : Nat) (f : α → α) :
    (list_modify l i f).length = l.length := by
  induction l generalizing i with
  | nil => simp [list_modify]
  | cons a t ih =>
    cases i with
    | zero => simp [list_modify]
    | succ n => simp [list_modify, ih]

theorem get?_append_some {α : Type} (l l2 : List α) (i : Nat) (x : α)
    (h : l.get? i = some x) : (l ++ l2).get? i = some x := by
  have hlt : i < l.length := (List.get?_eq_some.mp h).1
  rw [List.get?_append hlt]
  exact h

theorem get?_concat_self {α : Type} (l : List α) (a : α) :
    (l ++ [a]).get? l.length = some a := by
  rw [List.get?_append_right (Nat.le_refl _)]
  simp

theorem get?_append_cases {α : Type} (l : List α) (a : α) (i : Nat) (x : α)
    (h : (l ++ [a]).get? i = some x) :
    (l.get? i = some x) ∨ (i = l.length ∧ x = a) := by
  by_cases hi : i < l.length
  · left
    rw [List.get?_append hi] at h
    exact h
  · right
    have hle : l.length ≤ i := Nat.le_of_not_lt hi
    rw [List.get?_append_right hle] at h
    cases hd : i - l.length with
    | zero =>
      rw [hd] at h
      simp at h
      have : i = l.length := by omega
      exact ⟨this, h.symm⟩
    | succ n =>
      rw [hd] at h
      simp at h

theorem EdgesRel_refl (s : SOLI) : EdgesRel s s :=
  ⟨rfl, rfl, rfl, rfl, fun _ => rfl, fun _ x c h hx => ⟨c, h, hx⟩⟩

theorem EdgesRel_trans (a b c : SOLI) (h1 : EdgesRel a b) (h2 : EdgesRel b c) :
    EdgesRel a c := by
  obtain ⟨i1, l1, a1, n1, m1, p1⟩ := h1
  obtain ⟨i2, l2, a2, n2, m2, p2⟩ := h2
  refine ⟨i2.trans i1, l2.trans l1, a2.trans a1, n2.trans n1,
    fun i => (m2 i).trans (m1 i), ?_⟩
  intro i x c0 hc hx
  obtain ⟨c1, hc1, hx1⟩ := p1 i x c0 hc hx
  exact p2 i x c1 hc1 hx1

theorem clear_parents_append (c : OWLClass) (x : List String) :
    clear_parents { c with parent_class_of := c.parent_class_of ++ x } = clear_parents c :=
  rfl

theorem add_edge_rel (s : SOLI) (ci par : String) : EdgesRel s (add_edge s ci par) := by
  unfold add_edge
  by_cases h : (par == OWL_THING) = true
  · rw [if_pos h]
    exact EdgesRel_refl s
  · rw [if_neg h]
    cases hidx : dget ({ s with class_edges := dappend s.class_edges par ci } :
        SOLI).iri_to_index (normalize_iri par) with
    | none =>
      simp only [hidx]
      exact ⟨rfl, rfl, rfl, rfl, fun _ => rfl, fun _ x c hc hx => ⟨c, hc, hx⟩⟩
    | some idx =>
      simp only [hidx]
      refine ⟨rfl, rfl, rfl, ?_, ?_, ?_⟩
      · exact list_modify_length _ _ _
      · intro i
        rw [list_modify_get]
        by_cases hie : i = idx
        · rw [if_pos hie]
          cases s.classes.get? i with
          | none => rfl
          | some c => rfl
        · rw [if_neg hie]
      · intro i x c hc hx
        rw [list_modify_get]
        by_cases hie : i = idx
        · rw [if_pos hie, hc]
          exact ⟨_, rfl, List.mem_append_left _ hx⟩
        · rw [if_neg hie]
          exact ⟨c, hc, hx⟩

theorem build_class_edges_rel (s : SOLI) : EdgesRel s (build_class_edges s) := by
  unfold build_class_edges
  refine foldl_rel _ EdgesRel EdgesRel_refl EdgesRel_trans ?_ _ s
  intro s2 p
  refine foldl_rel _ EdgesRel EdgesRel_refl EdgesRel_trans ?_ _ s2
  intro s3 par
  exact add_edge_rel s3 p.1 par

theorem truthy_eq_some (o : Option String) (h : truthy o = true) : o = some (o.getD "") := by
  cases o with
  | none => simp [truthy] at h
  | some s => rfl

theorem alt_fold_IndexOK (classes2 : List OWLClass) (n : Nat) (c : OWLClass)
    (hc : classes2.get? n = some c) :
    ∀ (als : List (Option String)) (m : List (String × List Nat)),
      (∀ al ∈ als, al ∈ c.alternative_labels) →
      (∀ k l, dget m k = some l →
        ∀ i ∈ l, ∃ c0, classes2.get? i = some c0 ∧ some k ∈ c0.alternative_labels) →
      (∀ k l,
        dget (als.foldl (fun m al => if truthy al then dappend m (al.getD "") n else m) m)
          k = some l →
        ∀ i ∈ l, ∃ c0, classes2.get? i = some c0 ∧ some k ∈ c0.alternative_labels) := by
  intro als
  induction als with
  | nil =>
    intro m _ hm
    simpa using hm
  | cons al rest ih =>
    intro m hmem hm
    simp only [List.foldl_cons]
    apply ih
    · intro a ha
      exact hmem a (List.mem_cons_of_mem _ ha)
    · by_cases ht : truthy al = true
      · rw [if_pos ht]
        intro k l hkl i hi
        rw [dget_dappend] at hkl
        by_cases hk : k = al.getD ""
        · rw [if_pos hk] at hkl
          injection hkl with hl
          rw [← hl] at hi
          rcases List.mem_append.mp hi with hi1 | hi2
          · cases hold : dget m (al.getD "") with
            | none => rw [hold] at hi1; simp at hi1
            | some lold =>
              rw [hold] at hi1
              have := hm _ _ hold i (by simpa using hi1)
              rw [hk]
              simpa using this
          · have hin : i = n := by simpa using hi2
            subst hin
            refine ⟨c, hc, ?_⟩
            have halmem : al ∈ c.alternative_labels := hmem al (List.mem_cons_self _ _)
            have hsome : al = some (al.getD "") := truthy_eq_some al ht
            rw [hk, ← hsome]
            exact halmem
        · rw [if_neg hk] at hkl
          exact hm k l hkl i hi
      · rw [if_neg ht]
        exact hm

theorem accept_class_IndexOK (s : SOLI) (c : OWLClass) (ts : List Triple)
    (h : IndexOK s) : IndexOK (accept_class s c ts) := by
  obtain ⟨h1, h2, h3, h4⟩ := h
  have hidx : (s.classes ++ [c]).length - 1 = s.classes.length := by simp
  simp only [accept_class, hidx]
  refine ⟨?_, ?_, ?_, ?_⟩
  · intro k v hkv
    rw [dget_dset] at hkv
    by_cases hk : k = c.iri
    · rw [if_pos hk] at hkv
      injection hkv with hv
      exact ⟨c, by rw [← hv]; exact get?_concat_self s.classes c, hk.symm⟩
    · rw [if_neg hk] at hkv
      obtain ⟨c0, hc0, hi0⟩ := h1 k v hkv
      exact ⟨c0, get?_append_some _ _ _ _ hc0, hi0⟩
  · intro i c0 hc0
    rcases get?_append_cases _ _ _ _ hc0 with hleft | ⟨hi, hx⟩
    · obtain ⟨v, hv⟩ := h2 i c0 hleft
      rw [dget_dset]
      by_cases hk : c0.iri = c.iri
      · rw [if_pos hk]; exact ⟨_, rfl⟩
      · rw [if_neg hk]; exact ⟨v, hv⟩
    · subst hx
      rw [dget_dset, if_pos rfl]
      exact ⟨_, rfl⟩
  · by_cases ht : truthy c.label = true
    · rw [if_pos ht]
      intro k l hkl i hi
      rw [dget_dappend] at hkl
      by_cases hk : k = (c.label).getD ""
      · rw [if_pos hk] at hkl
        injection hkl with hl
        rw [← hl] at hi
        rcases List.mem_append.mp hi with hi1 | hi2
        · cases hold : dget s.label_to_index ((c.label).getD "") with
          | none => rw [hold] at hi1; simp at hi1
          | some lold =>
            rw [hold] at hi1
            obtain ⟨c0, hc0, hlab⟩ := h3 _ _ hold i (by simpa using hi1)
            exact ⟨c0, get?_append_some _ _ _ _ hc0, by rw [hk]; exact hlab⟩
        · have hin : i = s.classes.length := by simpa using hi2
          subst hin
          refine ⟨c, get?_concat_self s.classes c, ?_⟩
          rw [hk]
          exact truthy_eq_some c.label ht
      · rw [if_neg hk] at hkl
        obtain ⟨c0, hc0, hlab⟩ := h3 k l hkl i hi
        exact ⟨c0, get?_append_some _ _ _ _ hc0, hlab⟩
    · rw [if_neg ht]
      intro k l hkl i hi
      obtain ⟨c0, hc0, hlab⟩ := h3 k l hkl i hi
      exact ⟨c0, get?_append_some _ _ _ _ hc0, hlab⟩
  · apply alt_fold_IndexOK (s.classes ++ [c]) s.classes.length c
      (get?_concat_self s.classes c) c.alternative_labels s.alt_label_to_index
      (fun _ ha => ha)
    intro k l hkl i hi
    obtain ⟨c0, hc0, hlab⟩ := h4 k l hkl i hi
    exact ⟨c0, get?_append_some _ _ _ _ hc0, hlab⟩

theorem parse_owl_class_IndexOK (s : SOLI) (node : XmlNode) (h : IndexOK s) :
    IndexOK (parse_owl_class s node) := by
  unfold parse_owl_class
  split
  · exact h
  · dsimp only
    split
    · exact ⟨h.1, h.2.1, h.2.2.1, h.2.2.2⟩
    · exact accept_class_IndexOK s _ _ h

theorem parse_owl_ontology_fields (s : SOLI) (node : XmlNode) :
    ∃ t d, parse_owl_ontology s node = { s with title := t, description := d } := by
  unfold parse_owl_ontology
  refine foldl_preserve _ (fun s2 => ∃ t d, s2 = { s with title := t, description := d })
    ?_ node.children s ⟨s.title, s.description, rfl⟩
  intro s2 child hp
  obtain ⟨t, d, rfl⟩ := hp
  by_cases h1 : (child.tag == get_ns_tag "dc" "title") = true
  · exact ⟨child.text, d, by rw [if_pos h1]⟩
  · by_cases h2 : (child.tag == get_ns_tag "dc" "description") = true
    · exact ⟨t, child.text, by rw [if_neg h1, if_pos h2]⟩
    · exact ⟨t, d, by rw [if_neg h1, if_neg h2]⟩

theorem parse_node_IndexOK (s : SOLI) (node : XmlNode) (h : IndexOK s) :
    IndexOK (parse_node s node) := by
  unfold parse_node
  by_cases h1 : (node.tag == get_ns_tag "owl" "Class") = true
  · rw [if_pos h1]
    exact parse_owl_class_IndexOK s node h
  · rw [if_neg h1]
    by_cases h2 : (node.tag == get_ns_tag "owl" "Ontology") = true
    · rw [if_pos h2]
      obtain ⟨t, d, heq⟩ := parse_owl_ontology_fields s node
      rw [heq]
      exact ⟨h.1, h.2.1, h.2.2.1, h.2.2.2⟩
    · rw [if_neg h2]
      exact h

theorem IndexOK_empty : IndexOK {} := by
  refine ⟨?_, ?_, ?_, ?_⟩
  · intro k v h
    simp [dget] at h
  · intro i c h
    cases i <;> simp at h
  · intro k l h
    simp [dget] at h
  · intro k l h
    simp [dget] at h

theorem phase1_IndexOK (root : XmlNode) :
    IndexOK (root.children.foldl parse_node {}) :=
  foldl_preserve parse_node IndexOK (fun s n h => parse_node_IndexOK s n h)
    root.children {} IndexOK_empty

theorem map_clear_eq_cases (o1 o2 : Option OWLClass)
    (h : o1.map clear_parents = o2.map clear_parents) (c : OWLClass) (hc : o2 = some c) :
    ∃ c2, o1 = some c2 ∧ clear_parents c2 = clear_parents c := by
  subst hc
  cases o1 with
  | none => simp at h
  | some c2 =>
    simp only [Option.map_some'] at h
    injection h with h
    exact ⟨c2, rfl, h⟩

theorem clear_parents_iri (a b : OWLClass) (h : clear_parents a = clear_parents b) :
    a.iri = b.iri := by
  have h2 := congrArg OWLClass.iri h
  exact h2

theorem clear_parents_label (a b : OWLClass) (h : clear_parents a = clear_parents b) :
    a.label = b.label := by
  have h2 := congrArg OWLClass.label h
  exact h2

theorem clear_parents_alts (a b : OWLClass) (h : clear_parents a = clear_parents b) :
    a.alternative_labels = b.alternative_labels := by
  have h2 := congrArg OWLClass.alternative_labels h
  exact h2

theorem clear_parents_subs (a b : OWLClass) (h : clear_parents a = clear_parents b) :
    a.sub_class_of = b.sub_class_of := by
  have h2 := congrArg OWLClass.sub_class_of h
  exact h2

theorem IndexOK_of_rel (s t : SOLI) (rel : EdgesRel s t) (h : IndexOK s) : IndexOK t := by
  obtain ⟨hi, hl, ha, _, hm, _⟩ := rel
  obtain ⟨h1, h2, h3, h4⟩ := h
  refine ⟨?_, ?_, ?_, ?_⟩
  · intro k v hkv
    rw [hi] at hkv
    obtain ⟨c, hc, hciri⟩ := h1 k v hkv
    obtain ⟨c2, hc2, hcp⟩ := map_clear_eq_cases _ _ (hm v) c hc
    exact ⟨c2, hc2, by rw [clear_parents_iri c2 c hcp]; exact hciri⟩
  · intro i c2 hc2
    obtain ⟨c, hc, hcp⟩ := map_clear_eq_cases _ _ (hm i).symm c2 hc2
    obtain ⟨v, hv⟩ := h2 i c hc
    rw [hi, clear_parents_iri c2 c hcp.symm]
    exact ⟨v, hv⟩
  · intro k l hkl i hil
    rw [hl] at hkl
    obtain ⟨c, hc, hlab⟩ := h3 k l hkl i hil
    obtain ⟨c2, hc2, hcp⟩ := map_clear_eq_cases _ _ (hm i) c hc
    exact ⟨c2, hc2, by rw [clear_parents_label c2 c hcp]; exact hlab⟩
  · intro k l hkl i hil
    rw [ha] at hkl
    obtain ⟨c, hc, hlab⟩ := h4 k l hkl i hil
    obtain ⟨c2, hc2, hcp⟩ := map_clear_eq_cases _ _ (hm i) c hc
    exact ⟨c2, hc2, by rw [clear_parents_alts c2 c hcp]; exact hlab⟩

theorem load_rel (root : XmlNode) :
    EdgesRel (root.children.foldl parse_node {}) (load root) :=
  build_class_edges_rel (root.children.foldl parse_node {})

theorem load_IndexOK (root : XmlNode) : IndexOK (load root) :=
  IndexOK_of_rel _ _ (load_rel root) (phase1_IndexOK root)

theorem add_edge_adds (s : SOLI) (ci p : String) (idx : Nat)
    (hp : p ≠ OWL_THING)
    (hidx : dget s.iri_to_index (normalize_iri p) = some idx)
    (hc : ∃ c, s.classes.get? idx = some c) :
    ∃ c2, (add_edge s ci p).classes.get? idx = some c2 ∧ ci ∈ c2.parent_class_of := by
  obtain ⟨c, hc⟩ := hc
  unfold add_edge
  rw [if_neg (by simp [hp])]
  cases hd : dget ({ s with class_edges := dappend s.class_edges p ci } :
      SOLI).iri_to_index (normalize_iri p) with
  | none =>
    have hd2 : dget s.iri_to_index (normalize_iri p) = none := hd
    rw [hd2] at hidx
    exact absurd hidx (by simp)
  | some j =>
    have hd2 : dget s.iri_to_index (normalize_iri p) = some j := hd
    rw [hd2] at hidx
    injection hidx with hj
    subst hj
    simp only [hd]
    refine ⟨{ c with parent_class_of := c.parent_class_of ++ [ci] }, ?_, ?_⟩
    · have : (({ s with class_edges := dappend s.class_edges p ci } : SOLI).classes).get? j
          = some c := hc
      rw [list_modify_get, if_pos rfl, this]
      rfl
    · exact List.mem_append_right _ (by simp)

theorem inner_fold_adds (ci aIri : String) (idx : Nat) :
    ∀ (subs : List String) (s : SOLI),
      aIri ∈ subs → aIri ≠ OWL_THING →
      dget s.iri_to_index (normalize_iri aIri) = some idx →
      (∃ c, s.classes.get? idx = some c) →
      ∃ c2, (subs.foldl (fun s par => add_edge s ci par) s).classes.get? idx = some c2 ∧
        ci ∈ c2.parent_class_of := by
  intro subs
  induction subs with
  | nil =>
    intro s hmem
    simp at hmem
  | cons p rest ih =>
    intro s hmem hne hidx hc
    rw [List.foldl_cons]
    rcases List.mem_cons.mp hmem with heq | hmem2
    · subst heq
      obtain ⟨c2, hc2, hci⟩ := add_edge_adds s ci aIri idx hne hidx hc
      have hrel : EdgesRel (add_edge s ci aIri)
          (rest.foldl (fun s par => add_edge s ci par) (add_edge s ci aIri)) :=
        foldl_rel _ EdgesRel EdgesRel_refl EdgesRel_trans
          (fun s2 par => add_edge_rel s2 ci par) rest _
      exact hrel.2.2.2.2.2 idx ci c2 hc2 hci
    · have hrel := add_edge_rel s ci p
      apply ih (add_edge s ci p) hmem2 hne
      · rw [hrel.1]
        exact hidx
      · obtain ⟨c, hcc⟩ := hc
        obtain ⟨c2, hc2, _⟩ := map_clear_eq_cases _ _ (hrel.2.2.2.2.1 idx) c hcc
        exact ⟨c2, hc2⟩

theorem outer_fold_adds (aIri : String) (idx : Nat) :
    ∀ (pairs : List (String × List String)) (s : SOLI) (bIri : String)
      (subs : List String),
      (bIri, subs) ∈ pairs → aIri ∈ subs → aIri ≠ OWL_THING →
      dget s.iri_to_index (normalize_iri aIri) = some idx →
      (∃ c, s.classes.get? idx = some c) →
      ∃ c2,
        (pairs.foldl (fun s p => p.2.foldl (fun s par => add_edge s p.1 par) s) s).classes.get?
            idx = some c2 ∧
          bIri ∈ c2.parent_class_of := by
  intro pairs
  induction pairs with
  | nil =>
    intro s b subs hmem
    simp at hmem
  | cons pr rest ih =>
    obtain ⟨b2, subs2⟩ := pr
    intro s bIri subs hmem hsub hne hidx hc
    rw [List.foldl_cons]
    rcases List.mem_cons.mp hmem with heq | hmem2
    · injection heq with hb hs
      subst hb
      subst hs
      obtain ⟨c2, hc2, hci⟩ := inner_fold_adds bIri aIri idx subs s hsub hne hidx hc
      have hrel : EdgesRel (subs.foldl (fun s par => add_edge s bIri par) s)
          (rest.foldl (fun s p => p.2.foldl (fun s par => add_edge s p.1 par) s)
            (subs.foldl (fun s par => add_edge s bIri par) s)) :=
        foldl_rel _ EdgesRel EdgesRel_refl EdgesRel_trans
          (fun s2 p => foldl_rel _ EdgesRel EdgesRel_refl EdgesRel_trans
            (fun s3 par => add_edge_rel s3 p.1 par) p.2 s2) rest _
      exact hrel.2.2.2.2.2 idx bIri c2 hc2 hci
    · have hrel : EdgesRel s (subs2.foldl (fun s par => add_edge s b2 par) s) :=
        foldl_rel _ EdgesRel EdgesRel_refl EdgesRel_trans
          (fun s3 par => add_edge_rel s3 b2 par) subs2 s
      apply ih _ bIri subs hmem2 hsub hne
      · rw [hrel.1]
        exact hidx
      · obtain ⟨c, hcc⟩ := hc
        obtain ⟨c2, hc2, _⟩ := map_clear_eq_cases _ _ (hrel.2.2.2.2.1 idx) c hcc
        exact ⟨c2, hc2⟩

theorem build_class_edges_adds (s : SOLI) (i : Nat) (A B : OWLClass)
    (hA : s.classes.get? i = some A) (hB : B ∈ s.classes)
    (hsub : A.iri ∈ B.sub_class_of) (hne : A.iri ≠ OWL_THING)
    (hidx : dget s.iri_to_index (normalize_iri A.iri) = some i) :
    ∃ c2, (build_class_edges s).classes.get? i = some c2 ∧ B.iri ∈ c2.parent_class_of := by
  unfold build_class_edges
  exact outer_fold_adds A.iri i _ s B.iri B.sub_class_of
    (List.mem_map_of_mem _ hB) hsub hne hidx ⟨A, hA⟩

theorem pairwise_iri_get (l : List OWLClass)
    (h : l.Pairwise (fun a b => a.iri ≠ b.iri)) (i j : Nat) (c c2 : OWLClass)
    (hc : l.get? i = some c) (hc2 : l.get? j = some c2) (he : c.iri = c2.iri) :
    i = j := by
  have hi : i < l.length := (List.get?_eq_some.mp hc).1
  have hj : j < l.length := (List.get?_eq_some.mp hc2).1
  have hci : c = l.get ⟨i, hi⟩ := by
    have := List.get?_eq_get hi
    rw [hc] at this
    injection this
  have hcj : c2 = l.get ⟨j, hj⟩ := by
    have := List.get?_eq_get hj
    rw [hc2] at this
    injection this
  rcases Nat.lt_trichotomy i j with hij | hij | hij
  · exfalso
    have hr := (List.pairwise_iff_get.mp h) ⟨i, hi⟩ ⟨j, hj⟩ hij
    rw [← hci, ← hcj] at hr
    exact hr he
  · exact hij
  · exfalso
    have hr := (List.pairwise_iff_get.mp h) ⟨j, hj⟩ ⟨i, hi⟩ hij
    rw [← hci, ← hcj] at hr
    exact hr he.symm

theorem load_self_index (root : XmlNode) (i : Nat) (E : OWLClass)
    (hE : (load root).classes.get? i = some E)
    (uniq : (load root).classes.Pairwise (fun a b => a.iri ≠ b.iri)) :
    dget (load root).iri_to_index E.iri = some i := by
  have rel := load_rel root
  have hIdx := phase1_IndexOK root
  obtain ⟨E1, hE1, hcpE⟩ :=
    map_clear_eq_cases _ _ (rel.2.2.2.2.1 i).symm E hE
  obtain ⟨v, hv⟩ := hIdx.2.1 i E1 hE1
  obtain ⟨Cv, hCv, hCviri⟩ := hIdx.1 E1.iri v hv
  obtain ⟨Cv2, hCv2, hcpCv⟩ := map_clear_eq_cases _ _ (rel.2.2.2.2.1 v) Cv hCv
  have hiri_eq : Cv2.iri = E.iri := by
    rw [clear_parents_iri Cv2 Cv hcpCv, hCviri, clear_parents_iri E1 E hcpE]
  have hvi : v = i := pairwise_iri_get _ uniq v i Cv2 E hCv2 hE hiri_eq
  subst hvi
  have hEiri : E1.iri = E.iri := clear_parents_iri E1 E hcpE
  rw [rel.1, ← hEiri]
  exact hv

theorem getitem_str_of_index (s : SOLI) (x : String) (i : Nat) (E : OWLClass)
    (hd : dget s.iri_to_index (normalize_iri x) = some i)
    (hE : s.classes.get? i = some E) :
    getitem_str s x = some E := by
  unfold getitem_str
  rw [hd]
  exact hE

theorem add_edge_dangling (s : SOLI) (ci p : String) (hp : p ≠ OWL_THING)
    (hd : dget s.iri_to_index (normalize_iri p) = none) :
    add_edge s ci p = { s with class_edges := dappend s.class_edges p ci } := by
  unfold add_edge
  rw [if_neg (by simp [hp])]
  cases hdd : dget ({ s with class_edges := dappend s.class_edges p ci } :
      SOLI).iri_to_index (normalize_iri p) with
  | none => simp only [hdd]
  | some j =>
    have hdd2 : dget s.iri_to_index (normalize_iri p) = some j := hdd
    rw [hdd2] at hd
    exact absurd hd (by simp)

/-- C1 (amended): for every entity E of a loaded snapshot whose IRI has the
canonical form base-URL ++ token with a slash-free token not starting with
the lmss legacy scheme, and whose IRI no other entity shares, string lookup
of E.iri returns E, and lookup of each legacy form of the same IRI (the
soli scheme, the lmss scheme and the legacy HTTP base) also returns E.
The original claim drops the canonical-form and uniqueness provisos and is
refuted by C1_counterexample: normalization runs at lookup but not at
insertion, so an entity stored under a non-canonical IRI is unreachable. -/
theorem C1_iri_roundtrip (root : XmlNode) (i : Nat) (E : OWLClass) (tok : String)
    (hE : (load root).classes.get? i = some E)
    (uniq : (load root).classes.Pairwise (fun a b => a.iri ≠ b.iri))
    (hiri : E.iri = SOLI_BASE ++ tok)
    (hslash : count_char tok '/' = 0)
    (hlmss : starts_with tok "lmss:" = false) :
    getitem_str (load root) E.iri = some E ∧
    getitem_str (load root) ("soli:" ++ tok) = some E ∧
    getitem_str (load root) ("lmss:" ++ tok) = some E ∧
    getitem_str (load root) ("http://lmss.sali.org/" ++ tok) = some E := by
  have hsel := load_self_index root i E hE uniq
  refine ⟨?_, ?_, ?_, ?_⟩
  · refine getitem_str_of_index _ _ i E ?_ hE
    rw [hiri, normalize_canonical tok, ← hiri]
    exact hsel
  · refine getitem_str_of_index _ _ i E ?_ hE
    rw [normalize_soli_form tok hslash hlmss, ← hiri]
    exact hsel
  · refine getitem_str_of_index _ _ i E ?_ hE
    rw [normalize_lmss_form tok hslash, ← hiri]
    exact hsel
  · refine getitem_str_of_index _ _ i E ?_ hE
    rw [normalize_legacy_url_form tok hslash, ← hiri]
    exact hsel

/-- C1 counterexample: a loaded snapshot stores an entity under the
non-canonical IRI soli:R1, and string lookup of that very IRI answers
not-found, because lookup normalizes the key to the canonical form while
the index holds the raw one. -/
theorem C1_counterexample :
    (load doc_legacy).classes.get? 0 = some { iri := "soli:R1", label := some "A" } ∧
    getitem_str (load doc_legacy) "soli:R1" = none := by
  refine ⟨by decide, by decide⟩

/-- Witness for C1_iri_roundtrip at a concrete canonical snapshot. -/
theorem C1_witness :
    getitem_str (load doc_canonical) (SOLI_BASE ++ "R1") =
      some { iri := SOLI_BASE ++ "R1", label := some "A",
             parent_class_of := [SOLI_BASE ++ "R2"] } ∧
    getitem_str (load doc_canonical) ("soli:" ++ "R1") =
      some { iri := SOLI_BASE ++ "R1", label := some "A",
             parent_class_of := [SOLI_BASE ++ "R2"] } ∧
    getitem_str (load doc_canonical) ("lmss:" ++ "R1") =
      some { iri := SOLI_BASE ++ "R1", label := some "A",
             parent_class_of := [SOLI_BASE ++ "R2"] } ∧
    getitem_str (load doc_canonical) ("http://lmss.sali.org/" ++ "R1") =
      some { iri := SOLI_BASE ++ "R1", label := some "A",
             parent_class_of := [SOLI_BASE ++ "R2"] } := by
  have h := C1_iri_roundtrip doc_canonical 0
    { iri := SOLI_BASE ++ "R1", label := some "A",
      parent_class_of := [SOLI_BASE ++ "R2"] } "R1"
    (by decide) (by decide) (by decide) (by decide) (by decide)
  exact h

/-- C2 (amended): in a loaded snapshot with pairwise-distinct IRIs, if
B.sub_class_of contains A.iri, A.iri is not the owl:Thing sentinel, and
A.iri is already in canonical normalized form, then A.parent_class_of
contains B.iri; moreover a declared parent that does not resolve leaves the
state unchanged except for the forward-edge log, so the pass cannot fail.
The original claim omits the canonical-form and uniqueness provisos and is
refuted by C2_counterexample: the reverse-edge lookup normalizes the parent
reference, so a parent stored under a non-canonical IRI is never found. -/
theorem C2_inverse_edges :
    (∀ (root : XmlNode) (i j : Nat) (A B : OWLClass),
      (load root).classes.get? i = some A →
      (load root).classes.get? j = some B →
      (load root).classes.Pairwise (fun a b => a.iri ≠ b.iri) →
      A.iri ∈ B.sub_class_of → A.iri ≠ OWL_THING → normalize_iri A.iri = A.iri →
      B.iri ∈ A.parent_class_of) ∧
    (∀ (s : SOLI) (ci p : String), p ≠ OWL_THING →
      dget s.iri_to_index (normalize_iri p) = none →
      add_edge s ci p = { s with class_edges := dappend s.class_edges p ci }) := by
  constructor
  · intro root i j A B hA hB uniq hsub hne hnorm
    have rel := load_rel root
    have hsel := load_self_index root i A hA uniq
    have hsel1 : dget (root.children.foldl parse_node {}).iri_to_index
        (normalize_iri A.iri) = some i := by
      rw [hnorm, ← rel.1]
      exact hsel
    obtain ⟨A1, hA1, hcpA⟩ := map_clear_eq_cases _ _ (rel.2.2.2.2.1 i).symm A hA
    obtain ⟨B1, hB1, hcpB⟩ := map_clear_eq_cases _ _ (rel.2.2.2.2.1 j).symm B hB
    have hiriA : A1.iri = A.iri := clear_parents_iri A1 A hcpA
    have hsubs1 : A1.iri ∈ B1.sub_class_of := by
      rw [hiriA, clear_parents_subs B1 B hcpB]
      exact hsub
    have hBmem : B1 ∈ (root.children.foldl parse_node {}).classes := List.get?_mem hB1
    obtain ⟨c2, hc2, hmem⟩ := build_class_edges_adds _ i A1 B1 hA1 hBmem hsubs1
      (by rw [hiriA]; exact hne)
      (by rw [hiriA]; exact hsel1)
    have hc2load : (load root).classes.get? i = some c2 := hc2
    rw [hA] at hc2load
    injection hc2load with hc2e
    rw [hc2e, ← clear_parents_iri B1 B hcpB]
    exact hmem
  · intro s ci p hp hd
    exact add_edge_dangling s ci p hp hd

/-- C2 counterexample: entity A is stored under the non-canonical IRI
soli:R1 and entity B declares exactly that string as its parent; the parent
is not owl:Thing, yet after the parse A.parent_class_of stays empty, since
the membership test normalizes soli:R1 to the canonical form that is absent
from the index (the dangling-parent path is taken). -/
theorem C2_counterexample :
    (load doc_legacy_parent).classes.get? 0 =
      some { iri := "soli:R1", label := some "A" } ∧
    (load doc_legacy_parent).classes.get? 1 =
      some { iri := SOLI_BASE ++ "R2", label := some "B",
             sub_class_of := ["soli:R1"] } ∧
    ("soli:R1" : String) ≠ OWL_THING ∧
    ("soli:R1" : String) ∈
      ({ iri := SOLI_BASE ++ "R2", label := some "B",
         sub_class_of := ["soli:R1"] } : OWLClass).sub_class_of ∧
    (SOLI_BASE ++ "R2") ∉
      ({ iri := "soli:R1", label := some "A" } : OWLClass).parent_class_of := by
  refine ⟨by decide, by decide, by decide, by decide, by decide⟩

/-- Witness for the first part of C2_inverse_edges at a concrete canonical
snapshot. -/
theorem C2_witness :
    ({ iri := SOLI_BASE ++ "R2", label := some "B",
       sub_class_of := [SOLI_BASE ++ "R1"] } : OWLClass).iri ∈
      ({ iri := SOLI_BASE ++ "R1", label := some "A",
         parent_class_of := [SOLI_BASE ++ "R2"] } : OWLClass).parent_class_of := by
  exact C2_inverse_edges.1 doc_canonical 0 1
    { iri := SOLI_BASE ++ "R1", label := some "A",
      parent_class_of := [SOLI_BASE ++ "R2"] }
    { iri := SOLI_BASE ++ "R2", label := some "B",
      sub_class_of := [SOLI_BASE ++ "R1"] }
    (by decide) (by decide) (by decide) (by decide) (by decide) (by decide)

theorem parse_owl_class_class_edges (s : SOLI) (node : XmlNode) :
    (parse_owl_class s node).class_edges = s.class_edges := by
  unfold parse_owl_class
  split
  · rfl
  · dsimp only
    split
    · rfl
    · rfl

theorem parse_node_class_edges (s : SOLI) (node : XmlNode) :
    (parse_node s node).class_edges = s.class_edges := by
  unfold parse_node
  by_cases h1 : (node.tag == get_ns_tag "owl" "Class") = true
  · rw [if_pos h1]
    exact parse_owl_class_class_edges s node
  · rw [if_neg h1]
    by_cases h2 : (node.tag == get_ns_tag "owl" "Ontology") = true
    · rw [if_pos h2]
      obtain ⟨t, d, heq⟩ := parse_owl_ontology_fields s node
      rw [heq]
    · rw [if_neg h2]

theorem phase1_class_edges (root : XmlNode) :
    (root.children.foldl parse_node {}).class_edges = [] :=
  foldl_preserve parse_node (fun s2 => s2.class_edges = [])
    (fun s2 n h => by
      show (parse_node s2 n).class_edges = []
      rw [parse_node_class_edges]
      exact h)
    root.children {} rfl

theorem add_edge_no_thing_key (s : SOLI) (ci par : String)
    (h : dget s.class_edges OWL_THING = none) :
    dget (add_edge s ci par).class_edges OWL_THING = none := by
  unfold add_edge
  by_cases hp : (par == OWL_THING) = true
  · rw [if_pos hp]
    exact h
  · rw [if_neg hp]
    have hne : OWL_THING ≠ par := by
      intro he
      rw [he] at hp
      simp at hp
    cases hd : dget ({ s with class_edges := dappend s.class_edges par ci } :
        SOLI).iri_to_index (normalize_iri par) with
    | none =>
      simp only [hd]
      show dget (dappend s.class_edges par ci) OWL_THING = none
      rw [dget_dappend, if_neg hne]
      exact h
    | some idx =>
      simp only [hd]
      show dget (dappend s.class_edges par ci) OWL_THING = none
      rw [dget_dappend, if_neg hne]
      exact h

theorem build_class_edges_no_thing (s : SOLI)
    (h : dget s.class_edges OWL_THING = none) :
    dget (build_class_edges s).class_edges OWL_THING = none := by
  unfold build_class_edges
  refine foldl_preserve _ (fun s2 => dget s2.class_edges OWL_THING = none) ?_ _ s h
  intro s2 p hp2
  refine foldl_preserve _ (fun s3 => dget s3.class_edges OWL_THING = none) ?_ p.2 s2 hp2
  intro s3 par hp3
  exact add_edge_no_thing_key s3 p.1 par hp3

/-- C7 (amended): an entity whose IRI is the owl:Thing sentinel MAY be
stored in the entity sequence and IRI index (the validity skip exempts the
sentinel, see C7_counterexample), but no derived edge is created for a
declared parent equal to the sentinel: the forward-edge map of a loaded
snapshot never holds the owl:Thing key, and the edge-pass step is the
identity on such a parent, so no reverse edge is added either.  The
original claim additionally asserts the sentinel is never stored, which
C7_counterexample refutes. -/
theorem C7_root_sentinel :
    (∀ root : XmlNode, dget (load root).class_edges OWL_THING = none) ∧
    (∀ (s : SOLI) (ci : String), add_edge s ci OWL_THING = s) := by
  constructor
  · intro root
    have h0 : dget (root.children.foldl parse_node {}).class_edges OWL_THING = none := by
      rw [phase1_class_edges root]
      rfl
    exact build_class_edges_no_thing _ h0
  · intro s ci
    unfold add_edge
    rw [if_pos (by simp)]

/-- C7 counterexample: a document holding a bare owl:Thing class node
yields a snapshot that stores that entity and indexes its IRI. -/
theorem C7_counterexample :
    (load doc_thing).classes.get? 0 = some { iri := OWL_THING } ∧
    dget (load doc_thing).iri_to_index OWL_THING = some 0 := by
  refine ⟨by decide, by decide⟩

/-- C8 (amended): integer lookup follows Python list indexing and never
raises: a position in [0, count) returns the entity at that position, a
position at or above count returns None, a negative position within -count
returns the entity counted from the end (count + i), and a position below
-count returns None.  The original claim says every position outside
[0, count) returns None; C8_counterexample refutes it at -1, which returns
the last entity. -/
theorem C8_int_lookup (s : SOLI) (i : Int) :
    (0 ≤ i → i < (s.classes.length : Int) → ∃ c, getitem_int s i = some c ∧
      s.classes.get? i.toNat = some c) ∧
    ((s.classes.length : Int) ≤ i → getitem_int s i = none) ∧
    (i < 0 → -(s.classes.length : Int) ≤ i → ∃ c, getitem_int s i = some c ∧
      s.classes.get? ((s.classes.length : Int) + i).toNat = some c) ∧
    (i < -(s.classes.length : Int) → getitem_int s i = none) := by
  refine ⟨?_, ?_, ?_, ?_⟩
  · intro h0 hlt
    unfold getitem_int
    rw [if_pos h0]
    cases hg : s.classes.get? i.toNat with
    | none =>
      have := List.get?_eq_none.mp hg
      omega
    | some c => exact ⟨c, rfl, rfl⟩
  · intro hge
    unfold getitem_int
    by_cases h0 : 0 ≤ i
    · rw [if_pos h0]
      apply List.get?_eq_none.mpr
      omega
    · exfalso
      omega
  · intro hneg hge
    unfold getitem_int
    rw [if_neg (by omega)]
    dsimp only
    rw [if_pos (by omega)]
    cases hg : s.classes.get? ((s.classes.length : Int) + i).toNat with
    | none =>
      have := List.get?_eq_none.mp hg
      omega
    | some c => exact ⟨c, rfl, rfl⟩
  · intro hlt
    unfold getitem_int
    rw [if_neg (by omega)]
    dsimp only
    rw [if_neg (by omega)]

/-- C8 counterexample: position -1 lies outside [0, count) yet integer
lookup answers the last entity, not None (Python negative indexing). -/
theorem C8_counterexample :
    getitem_int (load doc_legacy) (-1) =
      some { iri := "soli:R1", label := some "A" } ∧
    ¬ (0 ≤ (-1 : Int) ∧ (-1 : Int) < ((load doc_legacy).classes.length : Int)) := by
  refine ⟨by decide, by decide⟩

/-- Witness for C8_int_lookup at a concrete snapshot: position 0 is found,
position 2 (out of range above) is an explicit None. -/
theorem C8_witness :
    (∃ c, getitem_int (load doc_legacy) 0 = some c ∧
      (load doc_legacy).classes.get? (0 : Int).toNat = some c) ∧
    getitem_int (load doc_legacy) 2 = none := by
  refine ⟨(C8_int_lookup (load doc_legacy) 0).1 (by decide) (by decide),
          (C8_int_lookup (load doc_legacy) 2).2.1 (by decide)⟩

theorem opt_map_list_eq_some {α β : Type} (f : α → Option β) (g : α → β) :
    ∀ l : List α, (∀ x ∈ l, f x = some (g x)) → opt_map_list f l = some (l.map g) := by
  intro l
  induction l with
  | nil => intro; rfl
  | cons a t ih =>
    intro h
    have ha := h a (List.mem_cons_self a t)
    have ht := ih (fun x hx => h x (List.mem_cons_of_mem _ hx))
    simp [opt_map_list, ha, ht]

theorem get_parents_rec_succ (s : SOLI) (fuel : Nat) (iri : String) (d : Int) :
    get_parents_rec s (fuel + 1) iri d =
      match getitem_str s iri with
      | none => some []
      | some c =>
        if d == 0 then some [c]
        else
          match opt_map_list (fun p => get_parents_rec s fuel p (d - 1))
              c.sub_class_of with
          | none => none
          | some tails => some (c :: tails.flatten) := by
  simp only [get_parents_rec]

theorem get_parents_zero (s : SOLI) (iri : String) :
    get_parents s iri 0 =
      match getitem_str s iri with
      | none => []
      | some c => [c] := by
  simp only [get_parents]

theorem get_parents_succ (s : SOLI) (iri : String) (n : Nat) :
    get_parents s iri (n + 1) =
      match getitem_str s iri with
      | none => []
      | some c => c :: c.sub_class_of.flatMap (fun p => get_parents s p n) := by
  simp only [get_parents]

theorem flatMap_eq_flatten_map {α β : Type} (f : α → List β) (l : List α) :
    l.flatMap f = (l.map f).flatten := by
  induction l with
  | nil => rfl
  | cons a t ih => simp [ih]

theorem get_parents_rec_eq (s : SOLI) :
    ∀ (n : Nat) (iri : String),
      get_parents_rec s (n + 1) iri (n : Int) = some (get_parents s iri n) := by
  intro n
  induction n with
  | zero =>
    intro iri
    rw [get_parents_rec_succ, get_parents_zero]
    cases h : getitem_str s iri with
    | none => rfl
    | some c => rfl
  | succ m ih =>
    intro iri
    rw [get_parents_rec_succ, get_parents_succ]
    cases h : getitem_str s iri with
    | none => rfl
    | some c =>
      have hd : (((m + 1 : Nat) : Int) == 0) = false := by
        simp only [beq_eq_false_iff_ne]
        omega
      have hsub : ((m + 1 : Nat) : Int) - 1 = (m : Int) := by omega
      simp only [hd, Bool.false_eq_true, if_false, hsub]
      rw [opt_map_list_eq_some _ (fun p => get_parents s p m) _ (fun x _ => ih x)]
      rw [flatMap_eq_flatten_map]

theorem get_parents_within (s : SOLI) :
    ∀ (n : Nat) (iri : String) (c : OWLClass),
      c ∈ get_parents s iri n → within_hops s n iri c := by
  intro n
  induction n with
  | zero =>
    intro iri c hc
    rw [get_parents_zero] at hc
    cases h : getitem_str s iri with
    | none =>
      rw [h] at hc
      simp at hc
    | some c0 =>
      rw [h] at hc
      simp at hc
      subst hc
      exact h
  | succ m ih =>
    intro iri c hc
    rw [get_parents_succ] at hc
    cases h : getitem_str s iri with
    | none =>
      rw [h] at hc
      simp at hc
    | some c0 =>
      rw [h] at hc
      rcases List.mem_cons.mp hc with rfl | hmem
      · exact Or.inl h
      · right
        rcases List.mem_flatMap.mp hmem with ⟨p, hp, hcp⟩
        exact ⟨c0, h, p, hp, ih p c hcp⟩

/-- C4 (amended, with the depth argument restricted to the naturals): for
every IRI and every natural max_depth N the traversal terminates with a
call-stack depth of at most N + 1 (the fuel semantics finishes on budget
N + 1 and agrees with the total function), every entity in the result is
reached within N sub_class_of hops of the start, recursion at depth 0
returns just the resolved entity, and an unresolvable IRI yields an empty
branch.  The original claim quantifies over every max_depth value, i.e.
also negative ints, and is refuted by C4_counterexample: at max_depth = -1
on a cyclic snapshot the recursion never returns. -/
theorem C4_get_parents (s : SOLI) (iri : String) (n : Nat) :
    get_parents_rec s (n + 1) iri (n : Int) = some (get_parents s iri n) ∧
    (∀ c ∈ get_parents s iri n, within_hops s n iri c) ∧
    (get_parents s iri 0 =
      match getitem_str s iri with
      | none => []
      | some c => [c]) ∧
    (getitem_str s iri = none → get_parents s iri n = []) := by
  refine ⟨get_parents_rec_eq s n iri, fun c hc => get_parents_within s n iri c hc,
    get_parents_zero s iri, ?_⟩
  intro h
  cases n with
  | zero => rw [get_parents_zero, h]
  | succ m => rw [get_parents_succ, h]

/-- C4 counterexample: the source takes max_depth as a plain int; at
max_depth = -1 the depth test never reaches 0, so on a snapshot whose
single class declares itself as parent the recursion never returns (no
finite call-stack budget produces a result). -/
theorem C4_counterexample :
    diverges_at (load doc_cycle) (SOLI_BASE ++ "R0") (-1) := by
  have hres : getitem_str (load doc_cycle) (SOLI_BASE ++ "R0") =
      some { iri := SOLI_BASE ++ "R0", label := some "C",
             sub_class_of := [SOLI_BASE ++ "R0"],
             parent_class_of := [SOLI_BASE ++ "R0"] } := by decide
  have key : ∀ (fuel : Nat) (d : Int), d < 0 →
      get_parents_rec (load doc_cycle) fuel (SOLI_BASE ++ "R0") d = none := by
    intro fuel
    induction fuel with
    | zero =>
      intro d hd
      rfl
    | succ f ih =>
      intro d hd
      rw [get_parents_rec_succ, hres]
      have hd0 : (d == 0) = false := by
        simp only [beq_eq_false_iff_ne]
        omega
      simp only [hd0, Bool.false_eq_true, if_false]
      have hrec := ih (d - 1) (by omega)
      simp only [opt_map_list, hrec]
  intro fuel
  exact key fuel (-1) (by decide)

/-- Witness for C4_get_parents on a concrete two-class snapshot at depth 1:
the fuel run finishes on budget 2, and the parent entity found is within
one hop of the start. -/
theorem C4_witness :
    get_parents_rec (load doc_canonical) 2 (SOLI_BASE ++ "R2") ((1 : Nat) : Int) =
      some (get_parents (load doc_canonical) (SOLI_BASE ++ "R2") 1) ∧
    within_hops (load doc_canonical) 1 (SOLI_BASE ++ "R2")
      { iri := SOLI_BASE ++ "R1", label := some "A",
        parent_class_of := [SOLI_BASE ++ "R2"] } := by
  have h := C4_get_parents (load doc_canonical) (SOLI_BASE ++ "R2") 1
  exact ⟨h.1, h.2.1 _ (by decide)⟩

/-- C9: a skos:prefLabel child of a Class node sets preferred_label to the
child text and leaves the triple log unchanged, while every other child
that changes the entity under construction appends exactly one triple to
the log. -/
theorem C9_pref_label :
    (∀ (c : OWLClass) (ts : List Triple) (child : XmlNode),
      child.tag = get_ns_tag "skos" "prefLabel" →
      parse_owl_class_child c ts child =
        ({ c with preferred_label := child.text }, ts)) ∧
    (∀ (c : OWLClass) (ts : List Triple) (child : XmlNode),
      child.tag ≠ get_ns_tag "skos" "prefLabel" →
      (parse_owl_class_child c ts child).1 ≠ c →
      (parse_owl_class_child c ts child).2.length = ts.length + 1) := by
  constructor
  · intro c ts child htag
    unfold parse_owl_class_child
    rw [htag]
    rw [if_neg (by decide), if_neg (by decide), if_neg (by decide), if_neg (by decide),
        if_neg (by decide), if_neg (by decide), if_pos (by decide)]
  · intro c ts child htag hne
    unfold parse_owl_class_child at hne ⊢
    by_cases h1 : (child.tag == get_ns_tag "rdfs" "label") = true
    · rw [if_pos h1]
      simp
    · rw [if_neg h1] at hne ⊢
      by_cases h2 : (child.tag == get_ns_tag "rdfs" "subClassOf") = true
      · rw [if_pos h2] at hne ⊢
        dsimp only at hne ⊢
        by_cases ha : truthy (child.getAttr (get_ns_tag "rdf" "resource")) = true
        · rw [if_pos ha]
          simp
        · rw [if_neg ha] at hne
          exact absurd rfl hne
      · rw [if_neg h2] at hne ⊢
        by_cases h3 : (child.tag == get_ns_tag "rdfs" "isDefinedBy") = true
        · rw [if_pos h3] at hne ⊢
          dsimp only at hne ⊢
          by_cases ha : truthy (child.getAttr (get_ns_tag "rdf" "resource")) = true
          · rw [if_pos ha]
            simp
          · rw [if_neg ha] at hne
            exact absurd rfl hne
        · rw [if_neg h3] at hne ⊢
          by_cases h4 : (child.tag == get_ns_tag "rdfs" "seeAlso") = true
          · rw [if_pos h4] at hne ⊢
            dsimp only at hne ⊢
            by_cases ha : truthy (child.getAttr (get_ns_tag "rdf" "resource")) = true
            · rw [if_pos ha]
              simp
            · rw [if_neg ha] at hne
              exact absurd rfl hne
          · rw [if_neg h4] at hne ⊢
            by_cases h5 : (child.tag == get_ns_tag "rdfs" "comment") = true
            · rw [if_pos h5]
              simp
            · rw [if_neg h5] at hne ⊢
              by_cases h6 : (child.tag == get_ns_tag "owl" "deprecated") = true
              · rw [if_pos h6]
                simp
              · rw [if_neg h6] at hne ⊢
                by_cases h7 : (child.tag == get_ns_tag "skos" "prefLabel") = true
                · exact absurd (by simpa using h7) htag
                · rw [if_neg h7] at hne ⊢
                  by_cases h8 : (child.tag == get_ns_tag "skos" "altLabel") = true
                  · rw [if_pos h8]
                    simp
                  · rw [if_neg h8] at hne ⊢
                    by_cases h9 : (child.tag == get_ns_tag "skos" "hiddenLabel") = true
                    · rw [if_pos h9]
                      simp
                    · rw [if_neg h9] at hne ⊢
                      by_cases h10 : (child.tag == get_ns_tag "skos" "definition") = true
                      · rw [if_pos h10]
                        simp
                      · rw [if_neg h10] at hne ⊢
                        by_cases h11 : (child.tag == get_ns_tag "skos" "example") = true
                        · rw [if_pos h11]
                          simp
                        · rw [if_neg h11] at hne ⊢
                          by_cases h12 : (child.tag == get_ns_tag "skos" "note") = true
                          · rw [if_pos h12]
                            simp
                          · rw [if_neg h12] at hne ⊢
                            by_cases h13 :
                                (child.tag == get_ns_tag "skos" "historyNote") = true
                            · rw [if_pos h13]
                              simp
                            · rw [if_neg h13] at hne ⊢
                              by_cases h14 :
                                  (child.tag == get_ns_tag "skos" "editorialNote") = true
                              · rw [if_pos h14]
                                simp
                              · rw [if_neg h14] at hne ⊢
                                by_cases h15 :
                                    (child.tag == get_ns_tag "skos" "inScheme") = true
                                · rw [if_pos h15]
                                  simp
                                · rw [if_neg h15] at hne ⊢
                                  by_cases h16 :
                                      (child.tag == get_ns_tag "dc" "identifier") = true
                                  · rw [if_pos h16]
                                    simp
                                  · rw [if_neg h16] at hne ⊢
                                    by_cases h17 :
                                        (child.tag == get_ns_tag "dc" "description") = true
                                    · rw [if_pos h17]
                                      simp
                                    · rw [if_neg h17] at hne ⊢
                                      by_cases h18 :
                                          (child.tag == get_ns_tag "dc" "source") = true
                                      · rw [if_pos h18]
                                        simp
                                      · rw [if_neg h18] at hne ⊢
                                        by_cases h19 :
                                            (child.tag == get_ns_tag "v1" "country") = true
                                        · rw [if_pos h19]
                                          simp
                                        · rw [if_neg h19] at hne
                                          exact absurd rfl hne

/-- Witness for C9_pref_label: a concrete prefLabel child mutates the
entity with no triple appended, and a concrete label child that mutates
the entity appends exactly one triple. -/
theorem C9_witness :
    parse_owl_class_child { iri := "X" } []
        (XmlNode.mk (get_ns_tag "skos" "prefLabel") [] (some "PL") []) =
      ({ iri := "X", preferred_label := some "PL" }, []) ∧
    (parse_owl_class_child { iri := "X" } [] (mk_label "L")).2.length =
      List.length ([] : List Triple) + 1 := by
  constructor
  · exact C9_pref_label.1 { iri := "X" } [] _ rfl
  · exact C9_pref_label.2 { iri := "X" } [] (mk_label "L") (by decide) (by decide)

/-- C10: for an rdfs:seeAlso child of a Class node, a missing or empty
rdf:resource attribute leaves both the entity and the triple log untouched;
with a non-empty resource the triple object is the attribute value while
the entity list receives the child element text, a distinct value. -/
theorem C10_see_also (c : OWLClass) (ts : List Triple) (child : XmlNode)
    (htag : child.tag = get_ns_tag "rdfs" "seeAlso") :
    ((child.getAttr (get_ns_tag "rdf" "resource") = none ∨
      child.getAttr (get_ns_tag "rdf" "resource") = some "") →
      parse_owl_class_child c ts child = (c, ts)) ∧
    (∀ v, child.getAttr (get_ns_tag "rdf" "resource") = some v → v ≠ "" →
      parse_owl_class_child c ts child =
        ({ c with see_also := c.see_also ++ [child.text] },
         ts ++ [(c.iri, "rdfs:seeAlso", some v)])) := by
  unfold parse_owl_class_child
  rw [htag]
  rw [if_neg (by decide), if_neg (by decide), if_neg (by decide), if_pos (by decide)]
  constructor
  · intro hattr
    dsimp only
    have hf : truthy (child.getAttr (get_ns_tag "rdf" "resource")) = false := by
      rcases hattr with h | h <;> rw [h] <;> rfl
    rw [if_neg (by simp [hf])]
  · intro v hv hne
    dsimp only
    rw [hv]
    have ht : truthy (some v) = true := by simp [truthy, hne]
    rw [if_pos ht]
    simp

/-- Witness for C10_see_also: without a resource attribute nothing changes;
with one, the triple carries the resource while the entity list carries the
element text, and the two differ. -/
theorem C10_witness :
    parse_owl_class_child { iri := "X" } []
        (XmlNode.mk (get_ns_tag "rdfs" "seeAlso") [] (some "display text") []) =
      ({ iri := "X" }, []) ∧
    parse_owl_class_child { iri := "X" } []
        (XmlNode.mk (get_ns_tag "rdfs" "seeAlso")
          [(get_ns_tag "rdf" "resource", "http://example.org/ref")]
          (some "display text") []) =
      ({ iri := "X", see_also := [some "display text"] },
       [("X", "rdfs:seeAlso", some "http://example.org/ref")]) := by
  constructor
  · exact (C10_see_also { iri := "X" } []
      (XmlNode.mk (get_ns_tag "rdfs" "seeAlso") [] (some "display text") [])
      rfl).1 (Or.inl (by decide))
  · exact (C10_see_also { iri := "X" } []
      (XmlNode.mk (get_ns_tag "rdfs" "seeAlso")
        [(get_ns_tag "rdf" "resource", "http://example.org/ref")]
        (some "display text") [])
      rfl).2 "http://example.org/ref" (by decide) (by decide)

/-- C3 (evaluation of the code at the failing input): a prefix search is
answered and memoized against the first snapshot; refresh replaces the
ontology with one whose only class is labelled zzzz; the same prefix search
after the refresh still returns the abcd entity of the discarded snapshot,
because SOLI.refresh clears every snapshot structure except the
_prefix_cache memo dict.  The second conjunct shows the refreshed snapshot
no longer contains that entity, so the answer is stale pre-refresh data. -/
theorem C3_stale_prefix_cache :
    ( search_by_prefix (refresh (( search_by_prefix (load doc_abcd) "abc").2) doc_zzzz)
        "abc").1 =
      [some { iri := SOLI_BASE ++ "R1", label := some "abcd" }] ∧
    (refresh (( search_by_prefix (load doc_abcd) "abc").2) doc_zzzz).classes =
      [{ iri := SOLI_BASE ++ "R2", label := some "zzzz" }] := by
  refine ⟨by decide, by decide⟩

theorem sbl_inner_inv (limit : Nat) (score : Score) :
    ∀ (l : List (Option OWLClass)) (results : List (OWLClass × Score))
      (seen : List String),
      ((results.map (fun r => r.1.iri)).Pairwise (fun a b => a ≠ b) ∧
        ∀ x ∈ results.map (fun r => r.1.iri), x ∈ seen) →
      (((sbl_inner limit score l (results, seen)).1.map (fun r => r.1.iri)).Pairwise
          (fun a b => a ≠ b) ∧
        ∀ x ∈ (sbl_inner limit score l (results, seen)).1.map (fun r => r.1.iri),
          x ∈ (sbl_inner limit score l (results, seen)).2) := by
  intro l
  induction l with
  | nil =>
    intro results seen h
    exact h
  | cons oc rest ih =>
    intro results seen h
    obtain ⟨h1, h2⟩ := h
    cases oc with
    | none =>
      rw [sbl_inner]
      dsimp only
      by_cases hl : limit ≤ results.length
      · rw [if_pos hl]
        exact ⟨h1, h2⟩
      · rw [if_neg hl]
        exact ih results seen ⟨h1, h2⟩
    | some c =>
      rw [sbl_inner]
      by_cases hc : seen.contains c.iri = true
      · dsimp only
        rw [if_pos hc]
        by_cases hl : limit ≤ results.length
        · rw [if_pos hl]
          exact ⟨h1, h2⟩
        · rw [if_neg hl]
          exact ih results seen ⟨h1, h2⟩
      · have hcf : seen.contains c.iri = false := by
          cases hcc : seen.contains c.iri with
          | true => exact absurd hcc hc
          | false => rfl
        have hcmem : c.iri ∉ seen := by
          intro hmem
          exact hc (List.elem_iff.mpr hmem)
        rw [hcf, if_neg (show ¬(false = true) from by simp)]
        have h1b : (((results ++ [(c, score)]).map (fun r => r.1.iri)).Pairwise
            (fun a b => a ≠ b)) := by
          rw [List.map_append]
          apply List.pairwise_append.mpr
          refine ⟨h1, by simp, ?_⟩
          intro a ha b hb
          simp at hb
          subst hb
          intro hab
          exact hcmem (by rw [← hab]; exact h2 a ha)
        have h2b : ∀ x ∈ (results ++ [(c, score)]).map (fun r => r.1.iri),
            x ∈ c.iri :: seen := by
          intro x hx
          rw [List.map_append] at hx
          rcases List.mem_append.mp hx with hx1 | hx2
          · exact List.mem_cons_of_mem _ (h2 x hx1)
          · simp at hx2
            subst hx2
            exact List.mem_cons_self _ _
        by_cases hl : limit ≤ (results ++ [(c, score)]).length
        · rw [if_pos hl]
          exact ⟨h1b, h2b⟩
        · rw [if_neg hl]
          exact ih _ _ ⟨h1b, h2b⟩

theorem sbl_outer_inv (s : SOLI) (inc : Bool) (limit : Nat) :
    ∀ (oracle : List (String × Score)) (results : List (OWLClass × Score))
      (seen : List String),
      ((results.map (fun r => r.1.iri)).Pairwise (fun a b => a ≠ b) ∧
        ∀ x ∈ results.map (fun r => r.1.iri), x ∈ seen) →
      ((sbl_outer s inc limit oracle (results, seen)).1.map
          (fun r => r.1.iri)).Pairwise (fun a b => a ≠ b) := by
  intro oracle
  induction oracle with
  | nil =>
    intro results seen h
    exact h.1
  | cons p rest ih =>
    obtain ⟨lbl, score⟩ := p
    intro results seen h
    rw [sbl_outer]
    have hin := sbl_inner_inv limit score (get_by_label s lbl inc) results seen h
    cases hacc : sbl_inner limit score (get_by_label s lbl inc) (results, seen) with
    | mk r2 s2 =>
      rw [hacc] at hin
      exact ih r2 s2 hin

/-- C5: evaluation of the code at the failing input, plus the half of the
claim that does hold.  With limit 2, three classes labelled aa, aa, ab and
the fuzzy stage returning the two labels aa and ab, search_by_label
returns THREE pairs: the length check breaks only the inner loop, so each
later matched label appends one entity before the check fires.  The
second conjunct proves the deduplication half in general: no two returned
pairs ever share an IRI. -/
theorem C5_search_by_label :
    (search_by_label (load doc_fuzzy) [("aa", 100), ("ab", 67)] false 2).length = 3 ∧
    (∀ (s : SOLI) (oracle : List (String × Score)) (inc : Bool) (limit : Nat),
      ((search_by_label s oracle inc limit).map (fun r => r.1.iri)).Pairwise
        (fun a b => a ≠ b)) := by
  constructor
  · decide
  · intro s oracle inc limit
    exact sbl_outer_inv s inc limit oracle [] [] ⟨by simp, by simp⟩

theorem parse_owl_class_prefix_cache (s : SOLI) (node : XmlNode) :
    (parse_owl_class s node).prefix_cache = s.prefix_cache := by
  unfold parse_owl_class
  split
  · rfl
  · dsimp only
    split
    · rfl
    · rfl

theorem parse_node_prefix_cache (s : SOLI) (node : XmlNode) :
    (parse_node s node).prefix_cache = s.prefix_cache := by
  unfold parse_node
  by_cases h1 : (node.tag == get_ns_tag "owl" "Class") = true
  · rw [if_pos h1]
    exact parse_owl_class_prefix_cache s node
  · rw [if_neg h1]
    by_cases h2 : (node.tag == get_ns_tag "owl" "Ontology") = true
    · rw [if_pos h2]
      obtain ⟨t, d, heq⟩ := parse_owl_ontology_fields s node
      rw [heq]
    · rw [if_neg h2]

theorem add_edge_prefix_cache (s : SOLI) (ci par : String) :
    (add_edge s ci par).prefix_cache = s.prefix_cache := by
  unfold add_edge
  by_cases hp : (par == OWL_THING) = true
  · rw [if_pos hp]
  · rw [if_neg hp]
    cases hd : dget ({ s with class_edges := dappend s.class_edges par ci } :
        SOLI).iri_to_index (normalize_iri par) with
    | none => simp only [hd]
    | some idx => simp only [hd]

theorem build_class_edges_prefix_cache (s : SOLI) :
    (build_class_edges s).prefix_cache = s.prefix_cache := by
  unfold build_class_edges
  refine foldl_preserve _ (fun s2 => s2.prefix_cache = s.prefix_cache) ?_ _ s rfl
  intro s2 p h2
  refine foldl_preserve _ (fun s3 => s3.prefix_cache = s.prefix_cache) ?_ p.2 s2 h2
  intro s3 par h3
  show (add_edge s3 p.1 par).prefix_cache = s.prefix_cache
  rw [add_edge_prefix_cache]
  exact h3

theorem load_prefix_cache (root : XmlNode) : (load root).prefix_cache = [] := by
  have h1 : (root.children.foldl parse_node ({} : SOLI)).prefix_cache = [] :=
    foldl_preserve parse_node (fun s2 => s2.prefix_cache = [])
      (fun s2 n h => by
        show (parse_node s2 n).prefix_cache = []
        rw [parse_node_prefix_cache]
        exact h)
      root.children {} rfl
  show (build_class_edges (root.children.foldl parse_node {})).prefix_cache = []
  rw [build_class_edges_prefix_cache]
  exact h1

theorem search_by_prefix_miss (s : SOLI) (pfxS : String)
    (h : dget s.prefix_cache pfxS = none) :
    ( search_by_prefix s pfxS).1 =
      ((prefix_keys s pfxS).foldl
        (fun acc key => acc ++ (dget s.label_to_index key).getD []
                            ++ (dget s.alt_label_to_index key).getD []) []).map
        (fun i => s.classes.get? i) := by
  unfold search_by_prefix
  rw [h]

theorem fold_acc_keys (m1 m2 : List (String × List Nat)) :
    ∀ (keys : List String) (init : List Nat),
      keys.foldl (fun acc key => acc ++ (dget m1 key).getD []
                              ++ (dget m2 key).getD []) init =
      init ++ keys.flatMap (fun key => (dget m1 key).getD [] ++ (dget m2 key).getD []) := by
  intro keys
  induction keys with
  | nil =>
    intro init
    simp
  | cons k t ih =>
    intro init
    rw [List.foldl_cons, ih]
    simp [List.append_assoc]

theorem map_flatMap_eq {α β γ : Type} (g : β → γ) (f : α → List β) (l : List α) :
    (l.flatMap f).map g = l.flatMap (fun x => (f x).map g) := by
  induction l with
  | nil => rfl
  | cons a t ih => simp [ih]

theorem pairwise_trivial {α : Type} (R : α → α → Prop) (l : List α)
    (h : ∀ a b, R a b) : l.Pairwise R := by
  induction l with
  | nil => exact List.Pairwise.nil
  | cons a t ih => exact List.Pairwise.cons (fun b _ => h a b) ih

theorem prefix_keys_mem (s : SOLI) (pfxS k : String) (h : k ∈ prefix_keys s pfxS) :
    starts_with k pfxS = true := by
  unfold prefix_keys at h
  cases htrie : s.label_trie with
  | some tk =>
    rw [htrie] at h
    rw [mem_sort_by_len] at h
    exact (List.mem_filter.mp h).2
  | none =>
    rw [htrie] at h
    rw [mem_sort_by_len] at h
    exact (List.mem_filter.mp h).2

theorem prefix_keys_sorted (s : SOLI) (pfxS : String) :
    (prefix_keys s pfxS).Pairwise (fun a b => str_len a ≤ str_len b) := by
  unfold prefix_keys
  cases s.label_trie with
  | some tk => exact pairwise_sort_by_len _
  | none => exact pairwise_sort_by_len _

/-- C6: a prefix search against a freshly loaded snapshot can be annotated
with the label string through which each returned entry was matched: every
matched string starts with the prefix and is the label or one of the
alternative labels of the entity it yields, and the matched-string lengths
are non-decreasing along the result (both for the trie branch and for the
linear fallback, which only differ in the key enumeration prefix_keys). -/
theorem C6_prefix_search (root : XmlNode) (pfxS : String) :
    ∃ pairs : List (String × Option OWLClass),
      ( search_by_prefix (load root) pfxS).1 = pairs.map Prod.snd ∧
      pairs.Pairwise (fun a b => str_len a.1 ≤ str_len b.1) ∧
      ∀ pr ∈ pairs, starts_with pr.1 pfxS = true ∧
        ∀ c, pr.2 = some c →
          (c.label = some pr.1 ∨ some pr.1 ∈ c.alternative_labels) := by
  refine ⟨(prefix_keys (load root) pfxS).flatMap (fun k =>
    (((dget (load root).label_to_index k).getD []) ++
      ((dget (load root).alt_label_to_index k).getD [])).map
      (fun i => (k, (load root).classes.get? i))), ?_, ?_, ?_⟩
  · rw [search_by_prefix_miss (load root) pfxS (by rw [load_prefix_cache]; rfl)]
    rw [fold_acc_keys, List.nil_append, map_flatMap_eq, map_flatMap_eq]
    congr 1
    funext k
    rw [List.map_map]
    rfl
  · apply List.pairwise_flatMap.mpr
    constructor
    · intro k _
      apply List.pairwise_map.mpr
      exact pairwise_trivial _ _ (fun a b => Nat.le_refl _)
    · refine List.Pairwise.imp ?_ (prefix_keys_sorted (load root) pfxS)
      intro a b hab x hx y hy
      rcases List.mem_map.mp hx with ⟨i, _, rfl⟩
      rcases List.mem_map.mp hy with ⟨j, _, rfl⟩
      exact hab
  · intro pr hpr
    rcases List.mem_flatMap.mp hpr with ⟨k, hk, hmem⟩
    rcases List.mem_map.mp hmem with ⟨i, hi, rfl⟩
    refine ⟨prefix_keys_mem _ _ _ hk, ?_⟩
    intro c hc
    rcases List.mem_append.mp hi with hi1 | hi2
    · cases hd : dget (load root).label_to_index k with
      | none =>
        rw [hd] at hi1
        simp at hi1
      | some l =>
        rw [hd] at hi1
        obtain ⟨c0, hc0, hlab⟩ :=
          (load_IndexOK root).2.2.1 k l hd i (by simpa using hi1)
        left
        have hc2 : (load root).classes.get? i = some c := hc
        rw [hc2] at hc0
        injection hc0 with he
        rw [← he] at hlab
        exact hlab
    · cases hd : dget (load root).alt_label_to_index k with
      | none =>
        rw [hd] at hi2
        simp at hi2
      | some l =>
        rw [hd] at hi2
        obtain ⟨c0, hc0, hlab⟩ :=
          (load_IndexOK root).2.2.2 k l hd i (by simpa using hi2)
        right
        have hc2 : (load root).classes.get? i = some c := hc
        rw [hc2] at hc0
        injection hc0 with he
        rw [← he] at hlab
        exact hlab

/-- Witness for C5_search_by_label: the deduplication half at the failing
input itself (the three returned pairs carry pairwise-distinct IRIs). -/
theorem C5_witness :
    ((search_by_label (load doc_fuzzy) [("aa", 100), ("ab", 67)] false 2).map
      (fun r => r.1.iri)).Pairwise (fun a b => a ≠ b) :=
  C5_search_by_label.2 (load doc_fuzzy) [("aa", 100), ("ab", 67)] false 2

/-- Witness for C6_prefix_search at a concrete snapshot and prefix. -/
theorem C6_witness :
    ∃ pairs : List (String × Option OWLClass),
      ( search_by_prefix (load doc_abcd) "abc").1 = pairs.map Prod.snd ∧
      pairs.Pairwise (fun a b => str_len a.1 ≤ str_len b.1) ∧
      ∀ pr ∈ pairs, starts_with pr.1 "abc" = true ∧
        ∀ c, pr.2 = some c →
          (c.label = some pr.1 ∨ some pr.1 ∈ c.alternative_labels) :=
  C6_prefix_search doc_abcd "abc"

/-- Witness for C7_root_sentinel at a concrete snapshot that even stores a
root-sentinel entity. -/
theorem C7_witness :
    dget (load doc_thing).class_edges OWL_THING = none :=
  C7_root_sentinel.1 doc_thing
